import Mathlib

/-!
A shallow embedding of the core of the `toad` terminal web browser
(HTML parser, CSS parser, style resolver, layout engine, cell-buffer
diff renderer), together with theorems settling the frozen claims
about it.

Conventions of the embedding:
* Rust `Vec<char>` buffers that are popped from the back are modelled
  as `List Char` popped from the head (the Rust buffers hold the text
  reversed, so the head of the Lean list is the next character).
* Machine integers (`u8`, `u16`, `u32`, `usize`) are modelled as `Nat`;
  overflow semantics are irrelevant to every claim below (no claim
  depends on arithmetic near `2^16`), and saturating casts are made
  explicit where the source uses `as u16` on floats.
* Rust `f32` percentages are modelled as `Rat`; no claim depends on
  float rounding.
* Rust panics (slice out of range, `unwrap`, `assert!`) are modelled by
  an `Option` result, `none` meaning the program panics.
* Rust byte-indexed string slicing and `len()` are modelled on
  `List Char`; the two agree on ASCII data, which covers every input
  appearing in a claim.
* Rust string operations (`trim`, `split`, `to_lowercase`,
  `starts_with`, `replace`) are implemented here on `List Char` so that
  all definitions reduce inside the kernel.
* The unicode-width table of the external `unicode_width` crate is a
  parameter `cw : Char → Nat` of the functions that use it.
-/

namespace Toad

/-- Cell-width constant from `consts.rs`. -/
def EM : Nat := 8

/-- Line-height constant from `consts.rs`. -/
def LH : Nat := 16

/-- ASCII lowercasing of one character (Rust `to_lowercase` restricted
to ASCII, which covers every keyword the CSS parser compares with). -/
def charLower (c : Char) : Char :=
  if 65 ≤ c.toNat ∧ c.toNat ≤ 90 then Char.ofNat (c.toNat + 32) else c

/-- Rust `str::to_lowercase`. -/
def lowerStr (s : String) : String := String.mk (s.data.map charLower)

/-- Rust `str::trim` on a character list. -/
def trimChars (l : List Char) : List Char :=
  ((l.dropWhile Char.isWhitespace).reverse.dropWhile Char.isWhitespace).reverse

/-- Rust `str::trim`. -/
def trimStr (s : String) : String := String.mk (trimChars s.data)

/-- Rust `str::starts_with`. -/
def startsWithStr (s pat : String) : Bool := pat.data.isPrefixOf s.data

/-- Rust `str::ends_with`. -/
def endsWithStr (s pat : String) : Bool := pat.data.isSuffixOf s.data

/-- Rust `str::split` with a one-character separator. -/
def splitOnChar (sep : Char) : List Char → List (List Char)
  | [] => [[]]
  | c :: rest =>
    let r := splitOnChar sep rest
    if c = sep then [] :: r
    else
      match r with
      | [] => [[c]]
      | h :: t => (c :: h) :: t

/-- Rust `str::split_once` with a one-character separator. -/
def splitOnceChar (sep : Char) : List Char → Option (List Char × List Char)
  | [] => none
  | c :: rest =>
    if c = sep then some ([], rest)
    else
      match splitOnceChar sep rest with
      | none => none
      | some (a, b) => some (c :: a, b)

/-- Rust `str::trim_end_matches`: strip every trailing occurrence of
the (non-empty) pattern. -/
def stripSuffixAll (l suf : List Char) : List Char :=
  if h : suf ≠ [] ∧ suf.isSuffixOf l ∧ suf.length ≤ l.length then
    stripSuffixAll (l.take (l.length - suf.length)) suf
  else l
termination_by l.length
decreasing_by
  have hlen : suf.length ≥ 1 := by
    cases suf with
    | nil => exact absurd rfl h.1
    | cons a b => simp
  have := h.2.2
  simp only [List.length_take]
  omega

/-- The crossterm colors the program actually constructs
(`style::Color` in the source; remaining crossterm variants are never
produced by this code). -/
inductive Color where
  | Reset : Color
  | Red : Color
  | Rgb (r g b : Nat) : Color
deriving DecidableEq, Repr

/-- `hex_to_rgb` from `css.rs`: split a 24-bit value into RGB. -/
def hex_to_rgb (value : Nat) : Color :=
  Color.Rgb ((value >>> 16) % 256) ((value >>> 8) % 256) (value % 256)

/-- The value of a character as a digit in the given radix, as in Rust's
`char::to_digit` used by `from_str_radix`. -/
def digitVal (radix : Nat) (c : Char) : Option Nat :=
  let v : Option Nat :=
    if '0' ≤ c ∧ c ≤ '9' then some (c.toNat - 48)
    else if 'a' ≤ c ∧ c ≤ 'z' then some (c.toNat - 87)
    else if 'A' ≤ c ∧ c ≤ 'Z' then some (c.toNat - 55)
    else none
  match v with
  | some d => if d < radix then some d else none
  | none => none

/-- Rust's unsigned integer parsing (`from_str` / `from_str_radix`):
one optional leading `+`, then at least one digit, overflow past
`bound` is an error. -/
def parseUnsigned (radix bound : Nat) (s : List Char) : Option Nat :=
  let digits := match s with
    | '+' :: rest => rest
    | other => other
  if digits.isEmpty then none
  else
    digits.foldl
      (fun acc c =>
        match acc with
        | none => none
        | some n =>
          match digitVal radix c with
          | none => none
          | some d => if n * radix + d ≤ bound then some (n * radix + d) else none)
      (some 0)

/-- `text.parse::<u8>()`. -/
def parseU8 (s : String) : Option Nat := parseUnsigned 10 255 s.data

/-- `text.parse::<u16>()`. -/
def parseU16 (s : String) : Option Nat := parseUnsigned 10 65535 s.data

/-- `u32::from_str_radix(text, 16)`. -/
def parseHexU32 (s : List Char) : Option Nat := parseUnsigned 16 4294967295 s

/-- `parse_rgb_text` from `css.rs`.  The source slices
`&text[4..text.len() - 1]`, which panics (outer `none`) when the string
is shorter than 5 bytes; otherwise it splits the inside on `,` and
parses each part as `u8` after trimming. -/
def parse_rgb_text (text : String) : Option (Option Color) :=
  if text.data.length < 5 then none
  else
    let inner := (text.data.drop 4).dropLast
    let parts := splitOnChar ',' inner
    let vals := parts.foldl
      (fun acc p =>
        match acc with
        | none => none
        | some l =>
          match parseUnsigned 10 255 (trimChars p) with
          | none => none
          | some v => some (l ++ [v]))
      (some [])
    some (match vals with
      | some [r, g, b] => some (Color.Rgb r g b)
      | _ => none)

/-- `parse_hex_text` from `css.rs`: 6-digit hex, or 3-digit hex with
each digit doubled. -/
def parse_hex_text (text : String) : Option Color :=
  let s := text.data.drop 1
  if s.length = 6 then (parseHexU32 s).map hex_to_rgb
  else if s.length = 3 then
    match s with
    | [a, b, c] => (parseHexU32 [a, a, b, b, c, c]).map hex_to_rgb
    | _ => none
  else none

/-- `parse_color_text` from `css.rs`: the named-color table.  Note the
source's `"fuchs"` arm (its comment says the table was copied from the
web-colors list). -/
def parse_color_text (text : String) : Option Color :=
  match lowerStr text with
  | "white" => some (hex_to_rgb 0xFFFFFF)
  | "silver" => some (hex_to_rgb 0xC0C0C0)
  | "gray" => some (hex_to_rgb 0x808080)
  | "black" => some (hex_to_rgb 0x000000)
  | "red" => some (hex_to_rgb 0xFF0000)
  | "maroon" => some (hex_to_rgb 0x800000)
  | "yellow" => some (hex_to_rgb 0xFFFF00)
  | "olive" => some (hex_to_rgb 0x808000)
  | "lime" => some (hex_to_rgb 0x00FF00)
  | "green" => some (hex_to_rgb 0x008000)
  | "aqua" => some (hex_to_rgb 0x00FFFF)
  | "cyan" => some (hex_to_rgb 0x00FFFF)
  | "teal" => some (hex_to_rgb 0x008080)
  | "blue" => some (hex_to_rgb 0x0000FF)
  | "navy" => some (hex_to_rgb 0x000080)
  | "fuchs" => some (hex_to_rgb 0xFF00FF)
  | "purple" => some (hex_to_rgb 0x800080)
  | _ => none

/-- `parse_color` from `css.rs`.  The outer `Option` is the panic
channel (`parse_rgb_text` can panic), the inner one is the parse
result. -/
def parse_color (text : String) : Option (Option Color) :=
  if startsWithStr text "rgb" then parse_rgb_text text
  else if startsWithStr text "#" then some (parse_hex_text text)
  else some (parse_color_text text)

/-- `TextAlignment` from `main.rs`. -/
inductive TextAlignment where
  | Left | Centre | Right
deriving DecidableEq, Repr

/-- `Display` from `main.rs`. -/
inductive Display where
  | Inline | Block | None
deriving DecidableEq, Repr

/-- `Measurement` from `main.rs` (percentages are `f32` in the source,
modelled as `Rat`). -/
inductive Measurement where
  | FitContentWidth
  | FitContentHeight
  | PercentWidth (f : Rat)
  | PercentHeight (f : Rat)
  | Pixels (p : Nat)
deriving DecidableEq, Repr

/-- `ActualMeasurement` from `main.rs`. -/
inductive ActualMeasurement where
  | Pixels (p : Nat)
  | PercentOfUnknown (i : Nat) (f : Rat)
  | Waiting (i : Nat)
deriving DecidableEq, Repr

/-- `ActualMeasurement::get_pixels`. -/
def ActualMeasurement.get_pixels : ActualMeasurement → Option Nat
  | .Pixels p => some p
  | _ => none

/-- `ActualMeasurement::get_pixels_lossy`. -/
def ActualMeasurement.get_pixels_lossy : ActualMeasurement → Nat
  | .Pixels p => p
  | _ => 0

/-- `Default for ActualMeasurement` (`Waiting(999)`). -/
def ActualMeasurement.default : ActualMeasurement := .Waiting 999

/-- `NonInheritedField` from `main.rs`: unset, forced to inherit, or
specified. -/
inductive NonInheritedField (α : Type) where
  | Unset
  | Inherit
  | Specified (v : α)
deriving DecidableEq, Repr

/-- `NonInheritedField::inherit_from` (functional form): replace an
`Inherit` by the other value. -/
def NonInheritedField.inherit_from {α : Type} :
    NonInheritedField α → NonInheritedField α → NonInheritedField α
  | .Inherit, b => b
  | a, _ => a

/-- `NonInheritedField::unwrap_or`. -/
def NonInheritedField.unwrap_or {α : Type} : NonInheritedField α → α → α
  | .Specified v, _ => v
  | _, other => other

/-- `NonInheritedField::set_or`: the receiver unless it is `Unset`. -/
def NonInheritedField.set_or {α : Type} :
    NonInheritedField α → NonInheritedField α → NonInheritedField α
  | .Unset, other => other
  | a, _ => a

/-- `TextPrefix` from `main.rs`. -/
inductive TextPrefix where
  | Dot | Number
deriving DecidableEq, Repr

/-- `ElementDrawContext` from `main.rs`.  The source field
`text_prefix` is spelled `textPrefix` here. -/
structure ElementDrawContext where
  text_align : Option TextAlignment
  foreground_color : Option Color
  background_color : NonInheritedField Color
  display : NonInheritedField Display
  bold : Bool
  italics : Bool
  respect_whitespace : Bool
  width : NonInheritedField Measurement
  height : NonInheritedField Measurement
  textPrefix : Option TextPrefix
deriving DecidableEq, Repr

/-- `DEFAULT_DRAW_CTX` from `main.rs`. -/
def DEFAULT_DRAW_CTX : ElementDrawContext :=
  { text_align := none
    foreground_color := none
    background_color := .Unset
    display := .Unset
    bold := false
    italics := false
    respect_whitespace := false
    width := .Unset
    height := .Unset
    textPrefix := none }

/-- `ElementDrawContext::merge_inherit`: copy the inherited fields,
the other context winning where it has a value. -/
def ElementDrawContext.merge_inherit (self other : ElementDrawContext) :
    ElementDrawContext :=
  { self with
    text_align := other.text_align.or self.text_align
    foreground_color := other.foreground_color.or self.foreground_color
    textPrefix := other.textPrefix.or self.textPrefix
    bold := self.bold || other.bold
    italics := self.italics || other.italics
    respect_whitespace := self.respect_whitespace || other.respect_whitespace }

/-- `ElementDrawContext::merge_all`: `merge_inherit` plus the
non-inherited fields, the other context winning where it is set. -/
def ElementDrawContext.merge_all (self other : ElementDrawContext) :
    ElementDrawContext :=
  let s := self.merge_inherit other
  { s with
    display := other.display.set_or s.display
    height := other.height.set_or s.height
    width := other.width.set_or s.width
    background_color := other.background_color.set_or s.background_color }

/-- `parse_align_mode` from `css.rs`. -/
def parse_align_mode (text : String) : Option TextAlignment :=
  match trimStr (lowerStr text) with
  | "center" => some TextAlignment.Centre
  | "left" => some TextAlignment.Left
  | "start" => some TextAlignment.Left
  | "right" => some TextAlignment.Right
  | "end" => some TextAlignment.Right
  | _ => none

/-- `parse_display_mode` from `css.rs`. -/
def parse_display_mode (text : String) : Option Display :=
  match trimStr (lowerStr text) with
  | "block" => some Display.Block
  | "inline" => some Display.Inline
  | "none" => some Display.None
  | _ => none

/-- Rust `f32` literal parsing restricted to the plain
`[+|-] digits [. digits]` forms, as a rational.  (The full `f32`
grammar and rounding are irrelevant to every claim; nothing below
depends on a percentage value.) -/
def parseF32 (s : String) : Option Rat :=
  let (neg, body) := match s.data with
    | '-' :: rest => (true, rest)
    | '+' :: rest => (false, rest)
    | other => (false, other)
  let (intPart, fracPart) := match splitOnceChar '.' body with
    | none => (body, [])
    | some (a, b) => (a, b)
  if intPart.isEmpty ∧ fracPart.isEmpty then none
  else if (intPart.all Char.isDigit ∧ fracPart.all Char.isDigit) then
    let iv : Nat := intPart.foldl (fun n c => n * 10 + (c.toNat - 48)) 0
    let fv : Nat := fracPart.foldl (fun n c => n * 10 + (c.toNat - 48)) 0
    let q : Rat := (iv : Rat) + (fv : Rat) / ((10 : Rat) ^ fracPart.length)
    some (if neg then -q else q)
  else none

/-- `parse_measurement` from `css.rs`: `px` / `em` / `lh` suffixes. -/
def parse_measurement (text : String) : Option Measurement :=
  if endsWithStr text "px" then
    (parseUnsigned 10 65535 (stripSuffixAll text.data "px".data)).map .Pixels
  else if endsWithStr text "em" then
    (parseUnsigned 10 65535 (stripSuffixAll text.data "em".data)).map (fun f => .Pixels (f * EM))
  else if endsWithStr text "lh" then
    (parseUnsigned 10 65535 (stripSuffixAll text.data "lh".data)).map (fun f => .Pixels (f * LH))
  else none

/-- `parse_horizontal_measurement` from `css.rs`. -/
def parse_horizontal_measurement (text : String) : Option Measurement :=
  if endsWithStr text "%" then
    (parseF32 (String.mk (stripSuffixAll text.data "%".data))).map
      (fun f => .PercentWidth (f / 100))
  else parse_measurement text

/-- `parse_vertical_measurement` from `css.rs`. -/
def parse_vertical_measurement (text : String) : Option Measurement :=
  if endsWithStr text "%" then
    (parseF32 (String.mk (stripSuffixAll text.data "%".data))).map
      (fun f => .PercentHeight (f / 100))
  else parse_measurement text

/-- `parse_width` from `css.rs`. -/
def parse_width (text : String) : Option Measurement :=
  if text = "fit-content" then some .FitContentWidth
  else parse_horizontal_measurement text

/-- `parse_height` from `css.rs`. -/
def parse_height (text : String) : Option Measurement :=
  if text = "fit-content" then some .FitContentHeight
  else parse_vertical_measurement text

/-- `try_apply_rule` from `css.rs`.  `none` is the panic channel
(`parse_color` can panic on strings such as `"rgb"`). -/
def try_apply_rule (ctx : ElementDrawContext) (rule : String) :
    Option ElementDrawContext :=
  match splitOnceChar ':' rule.data with
  | none => some ctx
  | some (k, v) =>
    let key := String.mk (trimChars k)
    let value := String.mk (trimChars v)
    match key with
    | "color" =>
      match parse_color value with
      | none => none
      | some (some color) => some { ctx with foreground_color := some color }
      | some none => some ctx
    | "background-color" =>
      if value = "inherit" then some { ctx with background_color := .Inherit }
      else
        match parse_color value with
        | none => none
        | some (some color) => some { ctx with background_color := .Specified color }
        | some none => some ctx
    | "background" =>
      if value = "inherit" then some { ctx with background_color := .Inherit }
      else
        match parse_color value with
        | none => none
        | some (some color) => some { ctx with background_color := .Specified color }
        | some none => some ctx
    | "text-align" =>
      match parse_align_mode value with
      | some a => some { ctx with text_align := some a }
      | none => some ctx
    | "display" =>
      if value = "inherit" then some { ctx with display := .Inherit }
      else
        match parse_display_mode value with
        | some d => some { ctx with display := .Specified d }
        | none => some ctx
    | "width" =>
      if value = "inherit" then some { ctx with width := .Inherit }
      else
        match parse_width value with
        | some w => some { ctx with width := .Specified w }
        | none => some ctx
    | "height" =>
      if value = "inherit" then some { ctx with height := .Inherit }
      else
        match parse_height value with
        | some h => some { ctx with height := .Specified h }
        | none => some ctx
    | _ => some ctx

/-- `parse_ruleset` from `css.rs`: apply every `;`-separated rule. -/
def parse_ruleset (text : String) (ctx : ElementDrawContext) :
    Option ElementDrawContext :=
  (splitOnChar ';' text.data).foldl
    (fun acc rule =>
      match acc with
      | none => none
      | some c => try_apply_rule c (String.mk rule))
    (some ctx)

/-- `StyleTargetType` from `main.rs`. -/
inductive StyleTargetType where
  | ElementType (name : String)
  | Class (c : String) (ty : Option String)
  | Id (i : String) (ty : Option String)
deriving DecidableEq, Repr

/-- `ElementTargetInfo` from `main.rs`. -/
structure ElementTargetInfo where
  type_name : String
  id : Option String
  classes : List String
deriving DecidableEq, Repr

/-- `StyleTargetType::matches_one` from `main.rs`. -/
def StyleTargetType.matches_one : StyleTargetType → ElementTargetInfo → Bool
  | .ElementType ty, info => info.type_name = ty
  | .Class c ty, info =>
    info.classes.contains c &&
      (match ty with | none => true | some t => t = info.type_name)
  | .Id i ty, info =>
    (match info.id with | none => false | some j => j = i) &&
      (match ty with | none => true | some t => t = info.type_name)

/-- `StyleTarget` from `main.rs`. -/
structure StyleTarget where
  types : List StyleTargetType
deriving DecidableEq, Repr

/-- The inner greedy scan of `StyleTarget::matches`: for each remaining
segment (already reversed), scan forward in the remaining reversed
ancestor list until a match is found. -/
def matchesRev : List StyleTargetType → List ElementTargetInfo → Bool
  | [], _ => true
  | _ :: _, [] => false
  | t :: ts, i :: is =>
    if t.matches_one i then matchesRev ts is else matchesRev (t :: ts) is

/-- `StyleTarget::matches` from `main.rs`.  The source unwraps the last
element of `info`, panicking (`none`) when the chain is empty. -/
def StyleTarget.matches (self : StyleTarget) (info : List ElementTargetInfo) :
    Option Bool :=
  match info.reverse with
  | [] => none
  | first_element :: restInfo =>
    match self.types.reverse with
    | [] => some false
    | first_type :: restTypes =>
      if first_type.matches_one first_element then
        some (matchesRev restTypes restInfo)
      else some false

/-- Greedy completeness for the selector scan: the greedy
right-to-left walk succeeds exactly when some order-preserving
embedding of the segments into the ancestors exists. -/
theorem matchesRev_iff (is : List ElementTargetInfo) (ts : List StyleTargetType) :
    matchesRev ts is = true ↔
      ∃ l, l.Sublist is ∧ List.Forall₂ (fun t i => t.matches_one i = true) ts l := by
  induction is generalizing ts with
  | nil =>
    cases ts with
    | nil =>
      constructor
      · intro _h
        exact ⟨[], List.Sublist.refl _, List.Forall₂.nil⟩
      · intro _h
        rfl
    | cons t ts' =>
      constructor
      · intro hfalse
        simp [matchesRev] at hfalse
      · rintro ⟨l, hsub, hf⟩
        cases hf with
        | cons hx hrest => simp at hsub
  | cons i is' ih =>
    cases ts with
    | nil =>
      constructor
      · intro _h
        exact ⟨[], List.nil_sublist _, List.Forall₂.nil⟩
      · intro _h
        rfl
    | cons t ts' =>
      simp only [matchesRev]
      by_cases h : t.matches_one i = true
      · rw [if_pos h, ih]
        constructor
        · rintro ⟨l, hsub, hf⟩
          exact ⟨i :: l, List.Sublist.cons₂ i hsub, List.Forall₂.cons h hf⟩
        · rintro ⟨l, hsub, hf⟩
          cases hf with
          | @cons _ x _ l' hx hl' =>
            cases hsub with
            | cons _ hsub' =>
              exact ⟨l', ((List.sublist_cons_self x l').trans hsub'), hl'⟩
            | cons₂ _ hsub' => exact ⟨l', hsub', hl'⟩
      · rw [if_neg h, ih]
        constructor
        · rintro ⟨l, hsub, hf⟩
          exact ⟨l, hsub.trans (List.sublist_cons_self i is'), hf⟩
        · rintro ⟨l, hsub, hf⟩
          cases hf with
          | @cons _ x _ l' hx hl' =>
            cases hsub with
            | cons _ hsub' => exact ⟨x :: l', hsub', List.Forall₂.cons hx hl'⟩
            | cons₂ _ hsub' =>
              exact absurd hx h

/-- Splitting a non-empty list's reverse into its last element and the
reverse of the rest. -/
theorem reverse_eq_getLast_cons {α : Type} (l : List α) (h : l ≠ []) :
    l.reverse = l.getLast h :: l.dropLast.reverse := by
  conv_lhs => rw [← List.dropLast_append_getLast h]
  simp

/-- C5: for every non-empty selector and non-empty ancestor chain,
`StyleTarget::matches` returns `true` exactly when the last segment
matches the candidate element (the last chain entry) and the earlier
segments match strictly earlier ancestors in order, adjacency not
required. -/
theorem C5_styletarget_matches (tgt : StyleTarget)
    (info : List ElementTargetInfo) (h1 : tgt.types ≠ []) (h2 : info ≠ []) :
    tgt.matches info = some true ↔
      ((tgt.types.getLast h1).matches_one (info.getLast h2) = true ∧
        ∃ l, l.Sublist info.dropLast ∧
          List.Forall₂ (fun t i => t.matches_one i = true) tgt.types.dropLast l) := by
  have e1 := reverse_eq_getLast_cons info h2
  have e2 := reverse_eq_getLast_cons tgt.types h1
  simp only [StyleTarget.matches, e1, e2]
  by_cases h : (tgt.types.getLast h1).matches_one (info.getLast h2) = true
  · rw [if_pos h]
    simp only [Option.some.injEq, h, true_and]
    rw [matchesRev_iff]
    constructor
    · rintro ⟨l, hsub, hf⟩
      refine ⟨l.reverse, List.sublist_reverse_iff.mp hsub, ?_⟩
      rw [← List.reverse_reverse l] at hf
      exact List.forall₂_reverse_iff.mp hf
    · rintro ⟨l, hsub, hf⟩
      refine ⟨l.reverse, List.reverse_sublist.mpr hsub, ?_⟩
      exact List.forall₂_reverse_iff.mpr hf
  · rw [if_neg h]
    simp [h]

/-- C5 witness: the selector `div p` matches the chain
`html > div > span > p` (descendant combinator, adjacency not
required). -/
theorem C5_styletarget_matches_witness :
    (StyleTarget.mk [.ElementType "div", .ElementType "p"]).matches
        [⟨"html", none, []⟩, ⟨"div", none, []⟩, ⟨"span", none, []⟩,
          ⟨"p", none, []⟩] = some true := by
  have h := C5_styletarget_matches
    (StyleTarget.mk [.ElementType "div", .ElementType "p"])
    [⟨"html", none, []⟩, ⟨"div", none, []⟩, ⟨"span", none, []⟩, ⟨"p", none, []⟩]
    (by decide) (by decide)
  refine h.mpr ⟨by decide, ⟨[⟨"div", none, []⟩], ?_, ?_⟩⟩
  · refine List.Sublist.cons _ (List.Sublist.cons₂ _ ?_)
    exact (List.nil_sublist _).cons _
  · exact List.Forall₂.cons (by decide) List.Forall₂.nil

/-- C4: the named-color table rejects `fuchsia` (the code's arm reads
`"fuchs"`, contradicting its own comment that the table is copied from
the web-colors list), while accepting the truncated name `fuchs`. -/
theorem C4_parse_color_fuchs_typo :
    parse_color "fuchsia" = some none ∧
      parse_color "fuchs" = some (some (hex_to_rgb 0xFF00FF)) := by
  constructor
  · decide
  · decide

/-- The inner loop of `fit_text_in_width` from `element.rs`: `pw` is
the pre-computed `parent_width.get_pixels()`, `x` the running cell
count, `cur` the line under construction, `acc` the finished lines in
reverse order. -/
def fitLoop (pw : Option Nat) : List Char → Nat → List Char → List (List Char) → List (List Char)
  | [], _, cur, acc => (cur :: acc).reverse
  | c :: rest, x, cur, acc =>
    if c = '\n' then fitLoop pw rest 0 [] (cur :: acc)
    else
      let x' := x + 1
      let cur' := cur ++ [c]
      match pw with
      | some w =>
        if w / EM ≤ x' then fitLoop pw rest 0 [] (cur' :: acc)
        else fitLoop pw rest x' cur' acc
      | none => fitLoop pw rest x' cur' acc

/-- `fit_text_in_width` from `element.rs`: wrap text into lines of at
most `parent_width/EM` cells, starting the first line at
`starting_x/EM`. -/
def fit_text_in_width (text : List Char) (parent_width : ActualMeasurement)
    (starting_x : Nat) : List (List Char) :=
  fitLoop parent_width.get_pixels text (starting_x / EM) [] []

/-- Invariant proof for the wrapping loop: with a known parent width
whose cell count is at least one, every produced line keeps at most
`w/EM` characters. -/
theorem fitLoop_bound (w : Nat) (hw : 1 ≤ w / EM) :
    ∀ (text : List Char) (x : Nat) (cur : List Char) (acc : List (List Char)),
      cur.length ≤ x → cur.length < w / EM →
      (∀ p ∈ acc, p.length ≤ w / EM) →
      ∀ p ∈ fitLoop (some w) text x cur acc, p.length ≤ w / EM := by
  intro text
  induction text with
  | nil =>
    intro x cur acc hxc hcw hacc p hp
    simp only [fitLoop, List.mem_reverse, List.mem_cons] at hp
    rcases hp with rfl | hp
    · exact Nat.le_of_lt hcw
    · exact hacc p hp
  | cons c rest ih =>
    intro x cur acc hxc hcw hacc p hp
    simp only [fitLoop] at hp
    by_cases hnl : c = '\n'
    · rw [if_pos hnl] at hp
      refine ih 0 [] (cur :: acc) (by simp)
        (by simp only [List.length_nil]; omega) ?_ p hp
      intro q hq
      rcases List.mem_cons.mp hq with rfl | hq'
      · exact Nat.le_of_lt hcw
      · exact hacc q hq'
    · rw [if_neg hnl] at hp
      by_cases hwrap : w / EM ≤ x + 1
      · rw [if_pos hwrap] at hp
        refine ih 0 [] ((cur ++ [c]) :: acc) (by simp)
          (by simp only [List.length_nil]; omega) ?_ p hp
        intro q hq
        rcases List.mem_cons.mp hq with rfl | hq'
        · simp only [List.length_append, List.length_singleton]
          omega
        · exact hacc q hq'
      · rw [if_neg hwrap] at hp
        refine ih (x + 1) (cur ++ [c]) acc ?_ ?_ hacc p hp
        · simp only [List.length_append, List.length_singleton]
          omega
        · simp only [List.length_append, List.length_singleton]
          omega

/-- C7: for a parent width of `w` pixels spanning at least one cell,
every line produced by `fit_text_in_width` holds at most `w/EM`
characters (the function counts each character as one cell), for any
input text and any starting x offset. -/
theorem C7_fit_text_line_bound (w sx : Nat) (text : List Char)
    (hw : 1 ≤ w / EM) :
    ∀ p ∈ fit_text_in_width text (.Pixels w) sx, p.length ≤ w / EM := by
  refine fitLoop_bound w hw text (sx / EM) [] [] (by simp)
    (by simp only [List.length_nil]; omega) ?_
  intro q hq
  exact absurd hq (List.not_mem_nil q)

/-- C7 witness: a 20-character string in a parent of width `10*EM`
starting at x = 0 wraps into two full lines of exactly 10 characters
(plus one trailing empty line), each within the 10-cell bound; the
bound itself is obtained from the C7 theorem. -/
theorem C7_fit_text_line_bound_witness :
    (1 ≤ 80 / EM ∧
      ∀ p ∈ fit_text_in_width (List.replicate 20 'a') (.Pixels 80) 0,
        p.length ≤ 80 / EM) ∧
      fit_text_in_width (List.replicate 20 'a') (.Pixels 80) 0 =
        [List.replicate 10 'a', List.replicate 10 'a', []] :=
  ⟨⟨by decide, C7_fit_text_line_bound 80 0 (List.replicate 20 'a') (by decide)⟩,
    by decide⟩

/-- The palette constants referenced by `buffer.rs`.  Modelled from the
spec: the light theme uses white background, black text, grey UI and
blue interactive colors; no claim depends on the concrete values. -/
def BLACK_COLOR : Color := Color.Rgb 0 0 0

/-- White palette constant (see `BLACK_COLOR`). -/
def WHITE_COLOR : Color := Color.Rgb 255 255 255

/-- Grey palette constant (see `BLACK_COLOR`). -/
def GREY_COLOR : Color := Color.Rgb 174 175 204

/-- Blue palette constant (see `BLACK_COLOR`). -/
def BLUE_COLOR : Color := Color.Rgb 129 154 255

/-- `Cell` from `buffer.rs`. -/
structure Cell where
  char : Char
  foreground_color : Color
  background_color : Color
  bold : Bool
  italics : Bool
deriving DecidableEq, Repr

/-- `Default for Cell`. -/
def Cell.default : Cell :=
  { char := ' '
    foreground_color := BLACK_COLOR
    background_color := WHITE_COLOR
    bold := false
    italics := false }

/-- `Cell::compare_style` from `buffer.rs`. -/
def Cell.compare_style (self other : Cell) : Bool :=
  self.foreground_color == other.foreground_color &&
    self.background_color == other.background_color &&
    self.bold == other.bold && self.italics == other.italics

/-- One item of the byte stream the renderer queues to the terminal
(cursor moves, style changes, characters). -/
inductive Out where
  | MoveTo (x y : Nat)
  | ResetColor
  | SetStyle (fg bg : Color) (bold italics : Bool)
  | Ch (c : Char)
deriving DecidableEq, Repr

/-- `Cell::format_stdout` from `buffer.rs`: emit nothing when the style
matches the last emitted style, otherwise an optional attribute reset
followed by the combined style; returns the updated `last` cell. -/
def Cell.format_stdout (self last : Cell) : List Out × Cell :=
  if self.compare_style last then ([], last)
  else
    let needs_clearing := (!self.bold && last.bold) || (!self.italics && last.italics)
    ((if needs_clearing then [Out.ResetColor] else []) ++
        [Out.SetStyle self.foreground_color self.background_color self.bold self.italics],
      { last with
        bold := self.bold
        italics := self.italics
        foreground_color := self.foreground_color
        background_color := self.background_color })

/-- `Buffer` from `buffer.rs`. -/
structure Buffer where
  data : List Cell
  interactables : List (Option Nat)
  width : Nat
  height : Nat

/-- The cell loop of `Buffer::render` from `buffer.rs`.  `prevd` is the
remaining previous-buffer iterator; `none` output models the
`assert_ne!(char, '\n')` panic.  Wide characters (width from `cw`
greater than one) consume an extra cell of both iterators. -/
def renderLoop (cw : Char → Nat) (width startX startY : Nat) :
    List Cell → Nat → Option (List Cell) → Nat → Nat → Cell → Option (List Out)
  | [], _, _, _, _, _ => some []
  | cell :: rest, index, prevd, cursor_x, cursor_y, last =>
    let prevStep : Option Cell × Option (List Cell) := match prevd with
      | none => (none, none)
      | some [] => (none, some [])
      | some (p :: pr) => (some p, some pr)
    let prevHead := prevStep.1
    let prevRest := prevStep.2
    let skip := match prevHead with
      | some p => p.compare_style cell && p.char == cell.char
      | none => false
    if skip then renderLoop cw width startX startY rest (index + 1) prevRest cursor_x cursor_y last
    else
      let x := index % width + startX
      let y := index / width + startY
      let moveOut : List Out × Nat × Nat :=
        if cursor_x ≠ x ∨ cursor_y ≠ y then ([Out.MoveTo x y], x, y)
        else ([], cursor_x, cursor_y)
      if cell.char = '\n' then none
      else
        let styled := cell.format_stdout last
        let w := cw cell.char
        let tailRes :=
          if 1 < w then
            renderLoop cw width startX startY rest.tail (index + 2)
              (prevRest.map List.tail) (moveOut.2.1 + w) moveOut.2.2 cell
          else
            renderLoop cw width startX startY rest (index + 1)
              prevRest (moveOut.2.1 + w) moveOut.2.2 cell
        tailRes.map (fun out => moveOut.1 ++ styled.1 ++ [Out.Ch cell.char] ++ out)
termination_by cells index prevd cx cy last => cells.length
decreasing_by
  all_goals
    have htail : rest.tail.length ≤ rest.length := by
      cases rest <;> simp
    simp only [List.length_cons]
    omega

/-- `Buffer::render` from `buffer.rs`: diff against the optional
previous buffer and emit the queue of terminal writes. -/
def Buffer.render (cw : Char → Nat) (self : Buffer) (prev : Option Buffer)
    (start_x start_y : Nat) : Option (List Out) :=
  renderLoop cw self.width start_x start_y self.data 0 (prev.map Buffer.data)
    start_x start_y { Cell.default with background_color := Color.Reset }

/-- A cell always diff-skips against itself. -/
theorem compare_style_self (c : Cell) : c.compare_style c = true := by
  simp [Cell.compare_style]

/-- The render loop run against an identical previous iterator emits
nothing, from any cursor state. -/
theorem renderLoop_self (cw : Char → Nat) (width startX startY : Nat) :
    ∀ (cells : List Cell) (index cx cy : Nat) (last : Cell),
      renderLoop cw width startX startY cells index (some cells) cx cy last =
        some [] := by
  intro cells
  induction cells with
  | nil =>
    intro index cx cy last
    simp [renderLoop]
  | cons cell rest ih =>
    intro index cx cy last
    simp only [renderLoop, compare_style_self, beq_self_eq_true, Bool.and_self,
      if_pos]
    exact ih (index + 1) cx cy last

/-- C2: rendering any buffer against an identical previous buffer
writes nothing at all — no cursor moves, no attribute changes, no
characters — for every width table and start offset. -/
theorem C2_render_identical_empty (cw : Char → Nat) (b : Buffer)
    (sx sy : Nat) : b.render cw (some b) sx sy = some [] := by
  unfold Buffer.render
  exact renderLoop_self cw b.width sx sy b.data 0 sx sy _

/-- `ElementType` from `element.rs` (static tag descriptors). -/
structure ElementType where
  name : String
  stops_parsing : Bool
  void_element : Bool
  draw_ctx : ElementDrawContext
deriving DecidableEq, Repr

/-- `DEFAULT_ELEMENT_TYPE` from `element.rs`. -/
def DEFAULT_ELEMENT_TYPE : ElementType :=
  { name := "unknown"
    stops_parsing := false
    void_element := false
    draw_ctx := DEFAULT_DRAW_CTX }

/-- `NODE` from `element.rs` (text nodes). -/
def NODE : ElementType :=
  { DEFAULT_ELEMENT_TYPE with
    name := "node"
    draw_ctx := { DEFAULT_DRAW_CTX with
      width := .Specified .FitContentWidth
      height := .Specified .FitContentHeight
      background_color := .Inherit } }

/-- `P` from `element.rs`. -/
def P_TY : ElementType :=
  { DEFAULT_ELEMENT_TYPE with
    name := "p"
    draw_ctx := { DEFAULT_DRAW_CTX with
      display := .Specified .Block
      width := .Specified .FitContentWidth
      height := .Specified .FitContentHeight } }

/-- `SPAN` from `element.rs`. -/
def SPAN : ElementType :=
  { DEFAULT_ELEMENT_TYPE with
    name := "span"
    draw_ctx := { DEFAULT_DRAW_CTX with
      width := .Specified .FitContentWidth
      height := .Specified .FitContentHeight } }

/-- `B` from `element.rs` (spread from `SPAN`). -/
def B_TY : ElementType :=
  { SPAN with
    name := "b"
    draw_ctx := { DEFAULT_DRAW_CTX with
      bold := true
      width := .Specified .FitContentWidth
      height := .Specified .FitContentHeight } }

/-- `H1` from `element.rs`. -/
def H1 : ElementType :=
  { DEFAULT_ELEMENT_TYPE with
    name := "h1"
    draw_ctx := { DEFAULT_DRAW_CTX with
      bold := true
      foreground_color := some Color.Red
      display := .Specified .Block
      width := .Specified .FitContentWidth
      height := .Specified .FitContentHeight } }

/-- `BR` from `element.rs`. -/
def BR : ElementType :=
  { DEFAULT_ELEMENT_TYPE with
    name := "br"
    void_element := true
    draw_ctx := { DEFAULT_DRAW_CTX with
      display := .Specified .Block
      height := .Specified (.Pixels LH) } }

/-- `DIV` from `element.rs`. -/
def DIV : ElementType :=
  { DEFAULT_ELEMENT_TYPE with
    name := "div"
    draw_ctx := { DEFAULT_DRAW_CTX with
      display := .Specified .Block
      height := .Specified .FitContentHeight
      width := .Specified .FitContentWidth } }

/-- `BODY` from `element.rs`. -/
def BODY : ElementType :=
  { DEFAULT_ELEMENT_TYPE with
    name := "body"
    draw_ctx := { DEFAULT_DRAW_CTX with
      width := .Specified (.PercentWidth 1)
      height := .Specified (.PercentHeight 1)
      background_color := .Specified WHITE_COLOR
      display := .Specified .Block } }

/-- `HTML` from `element.rs`. -/
def HTML_TY : ElementType :=
  { DEFAULT_ELEMENT_TYPE with
    name := "html"
    draw_ctx := { DEFAULT_DRAW_CTX with
      width := .Specified (.PercentWidth 1)
      height := .Specified (.PercentHeight 1)
      display := .Specified .Block } }

/-- `PRE` from `element.rs`. -/
def PRE : ElementType :=
  { DEFAULT_ELEMENT_TYPE with
    name := "pre"
    draw_ctx := { DEFAULT_DRAW_CTX with
      respect_whitespace := true
      width := .Specified .FitContentWidth
      height := .Specified .FitContentHeight
      display := .Specified .Block } }

/-- `EM_TAG` from `element.rs` (spread from `SPAN`). -/
def EM_TAG : ElementType :=
  { SPAN with
    name := "em"
    draw_ctx := { DEFAULT_DRAW_CTX with
      italics := true
      width := .Specified .FitContentWidth
      height := .Specified .FitContentHeight } }

/-- `INPUT` from `element.rs`. -/
def INPUT : ElementType :=
  { DEFAULT_ELEMENT_TYPE with
    name := "input"
    void_element := true
    draw_ctx := { DEFAULT_DRAW_CTX with
      width := .Specified (.Pixels (20 * EM))
      height := .Specified (.Pixels (3 * LH))
      background_color := .Specified GREY_COLOR
      display := .Specified .Inline } }

/-- `CODE` from `element.rs`. -/
def CODE : ElementType :=
  { DEFAULT_ELEMENT_TYPE with
    name := "code"
    draw_ctx := { DEFAULT_DRAW_CTX with
      respect_whitespace := true
      width := .Specified .FitContentWidth
      height := .Specified .FitContentHeight
      display := .Specified .Inline } }

/-- `ELEMENT_TYPES` from `element.rs`: the full static tag table, with
every record-spread transcribed. -/
def ELEMENT_TYPES : List ElementType :=
  [ BODY, P_TY, BR, DIV, SPAN, B_TY, EM_TAG, PRE, HTML_TY, INPUT, CODE,
    { CODE with name := "samp" },
    { EM_TAG with name := "i" },
    { B_TY with name := "strong" },
    { DEFAULT_ELEMENT_TYPE with name := "select", stops_parsing := true },
    { DIV with name := "section" },
    { DIV with name := "table" },
    { DIV with name := "tbody" },
    { DIV with name := "th" },
    { DIV with name := "tr" },
    { SPAN with name := "td" },
    { EM_TAG with name := "cite" },
    { DIV with name := "details" },
    { SPAN with name := "summary" },
    { PRE with name := "textarea" },
    { PRE with name := "blockquote" },
    { P_TY with name := "dl" },
    { P_TY with name := "dt" },
    { P_TY with name := "dd" },
    { SPAN with name := "font" },
    { P_TY with name := "footer" },
    { HTML_TY with name := "main" },
    { DIV with name := "article" },
    { SPAN with name := "label" },
    { SPAN with name := "q" },
    { SPAN with name := "small" },
    { DEFAULT_ELEMENT_TYPE with name := "picture" },
    { DEFAULT_ELEMENT_TYPE with name := "source", void_element := true },
    { DEFAULT_ELEMENT_TYPE with name := "svg", stops_parsing := true },
    { INPUT with name := "button", void_element := false },
    { P_TY with name := "figcaption" },
    { DIV with name := "figure" },
    { DIV with name := "form" },
    { SPAN with name := "sup" },
    { DEFAULT_ELEMENT_TYPE with
      name := "ol"
      draw_ctx := { DEFAULT_DRAW_CTX with
        display := .Specified .Block
        width := .Specified .FitContentWidth
        height := .Specified .FitContentHeight
        textPrefix := some TextPrefix.Number } },
    { DEFAULT_ELEMENT_TYPE with
      name := "ul"
      draw_ctx := { DEFAULT_DRAW_CTX with
        display := .Specified .Block
        width := .Specified .FitContentWidth
        height := .Specified .FitContentHeight
        textPrefix := some TextPrefix.Dot } },
    { P_TY with name := "li" },
    { DEFAULT_ELEMENT_TYPE with name := "meta", void_element := true },
    { DEFAULT_ELEMENT_TYPE with
      name := "img"
      void_element := true
      draw_ctx := { DEFAULT_DRAW_CTX with
        width := .Specified (.Pixels (25 * EM))
        height := .Specified (.Pixels (10 * LH))
        display := .Specified .Block } },
    { DEFAULT_ELEMENT_TYPE with name := "hr", void_element := true },
    { SPAN with name := "time" },
    { DIV with name := "nav" },
    { DIV with name := "noscript" },
    { SPAN with name := "bdi" },
    { DEFAULT_ELEMENT_TYPE with
      name := "head"
      draw_ctx := { DEFAULT_DRAW_CTX with display := .Specified .None } },
    { DEFAULT_ELEMENT_TYPE with name := "link", void_element := true },
    { DEFAULT_ELEMENT_TYPE with name := "title", stops_parsing := true },
    { P_TY with name := "header" },
    { DEFAULT_ELEMENT_TYPE with
      name := "a"
      draw_ctx := { DEFAULT_DRAW_CTX with
        width := .Specified .FitContentWidth
        height := .Specified .FitContentHeight
        foreground_color := some (Color.Rgb 0 39 142) } },
    { DEFAULT_ELEMENT_TYPE with name := "style", stops_parsing := true },
    { DEFAULT_ELEMENT_TYPE with name := "script", stops_parsing := true },
    H1,
    { H1 with name := "h2" },
    { H1 with name := "h3" },
    { H1 with name := "h4" },
    { H1 with name := "h5" },
    { H1 with name := "h6" } ]

/-- `element::get_element_type`: look a tag name up in the table. -/
def get_element_type (name : String) : Option ElementType :=
  ELEMENT_TYPES.find? (fun f => f.name == name)

/-- `Element` from `element.rs`.  The `HashMap` of attributes is an
association list (the map is only read through `get`). -/
inductive Element where
  | mk (ty : ElementType) (children : List Element)
      (attributes : List (String × String)) (style : ElementDrawContext)
      (text : Option String) (classes : List String)

/-- Tag descriptor of an element. -/
def Element.ty : Element → ElementType
  | .mk t _ _ _ _ _ => t

/-- Children of an element. -/
def Element.children : Element → List Element
  | .mk _ c _ _ _ _ => c

/-- Attribute map of an element. -/
def Element.attributes : Element → List (String × String)
  | .mk _ _ a _ _ _ => a

/-- Inline style of an element. -/
def Element.style : Element → ElementDrawContext
  | .mk _ _ _ s _ _ => s

/-- Text payload of an element. -/
def Element.text : Element → Option String
  | .mk _ _ _ _ t _ => t

/-- Classes of an element. -/
def Element.classes : Element → List String
  | .mk _ _ _ _ _ c => c

/-- `Element::new` from `element.rs`. -/
def Element.new (ty : ElementType) : Element :=
  .mk ty [] [] DEFAULT_DRAW_CTX none []

/-- `HashMap::get` on the attribute association list
(`Element::get_attribute`). -/
def lookupAttr (attrs : List (String × String)) (k : String) : Option String :=
  match attrs.find? (fun p => p.1 == k) with
  | some p => some p.2
  | none => none

/-- `Element::get_attribute`. -/
def Element.get_attribute (e : Element) (k : String) : Option String :=
  lookupAttr e.attributes k

/-- `HashMap::insert` on the attribute association list: overwrite the
existing binding or append a new one. -/
def insertAttr (attrs : List (String × String)) (k v : String) :
    List (String × String) :=
  if attrs.any (fun p => p.1 == k) then
    attrs.map (fun p => if p.1 == k then (k, v) else p)
  else attrs ++ [(k, v)]

/-- `Element::set_attributes` from `element.rs`: parse the inline
`style` attribute into the element's style, split `class`, store the
map.  `none` is the panic channel of `parse_ruleset`. -/
def Element.set_attributes (e : Element) (attrs : List (String × String)) :
    Option Element :=
  let styleRes := match lookupAttr attrs "style" with
    | some s => parse_ruleset s e.style
    | none => some e.style
  match styleRes with
  | none => none
  | some st =>
    let classes := match lookupAttr attrs "class" with
      | some c => (splitOnChar ' ' c.data).map String.mk
      | none => e.classes
    some (.mk e.ty e.children attrs st e.text classes)

/-- `Interactable` from `main.rs`. -/
inductive Interactable where
  | Link (href : String)
  | InputText (form : Nat) (name : String) (w : Nat) (pos : Option (Nat × Nat))
  | InputSubmit (form : Nat)
deriving DecidableEq, Repr

/-- `reqwest::Method` as used by the program. -/
inductive Method where
  | GET | POST
deriving DecidableEq, Repr

/-- `parse_method` from `element.rs`. -/
def parse_method (m : String) : Option Method :=
  match m with
  | "post" => some Method.POST
  | "get" => some Method.GET
  | _ => none

/-- `Form` from `main.rs` (its `Default` has method `GET` and no text
fields). -/
structure Form where
  action : String
  method : Method
  text_fields : List (String × String)
deriving DecidableEq, Repr

/-- `GlobalDrawContext` from `main.rs` (the fields `element.rs::draw`
reads and writes). -/
structure GlobalDrawContext where
  global_style : List (StyleTarget × ElementDrawContext)
  unknown_sized_elements : List (Option ActualMeasurement)
  interactables : List Interactable
  forms : List Form
deriving DecidableEq, Repr

/-- The first part of `Element::get_active_style` from `element.rs`:
element-type defaults, inherited parent fields, matching global rules
in order, the inline style, then the `<font color>` and
`<img width|height>` attribute overrides.  `none` is the panic channel
(selector matching on an empty ancestor chain, `parse_color`). -/
def Element.get_active_style_pre (e : Element) (g : GlobalDrawContext)
    (parent_draw_context : ElementDrawContext)
    (ancestor_target_info : List ElementTargetInfo) :
    Option ElementDrawContext :=
  let style0 := e.ty.draw_ctx.merge_inherit parent_draw_context
  let globalRes := g.global_style.foldl
    (fun acc kv =>
      match acc with
      | none => none
      | some st =>
        match kv.1.matches ancestor_target_info with
        | none => none
        | some true => some (st.merge_all kv.2)
        | some false => some st)
    (some style0)
  match globalRes with
  | none => none
  | some st1 =>
    let st2 := st1.merge_all e.style
    let fontRes : Option ElementDrawContext :=
      if e.ty.name = "font" then
        match e.get_attribute "color" with
        | some color =>
          match parse_color color with
          | none => none
          | some co => some { st2 with foreground_color := co.or st2.foreground_color }
        | none => some st2
      else some st2
    match fontRes with
    | none => none
    | some st3 =>
      some (if e.ty.name = "img" then
        let stw := match (e.get_attribute "width").map parseU16 with
          | some (some w) => { st3 with width := .Specified (.Pixels w) }
          | _ => st3
        match (e.get_attribute "height").map parseU16 with
        | some (some h) => { stw with height := .Specified (.Pixels h) }
        | _ => stw
      else st3)

/-- `Element::get_active_style` from `element.rs`: the merge above
followed by resolving `Inherit` on `background_color`, `height` and
`display` against the parent context (the source does not resolve
`width`). -/
def Element.get_active_style (e : Element) (g : GlobalDrawContext)
    (parent_draw_context : ElementDrawContext)
    (ancestor_target_info : List ElementTargetInfo) :
    Option ElementDrawContext :=
  (e.get_active_style_pre g parent_draw_context ancestor_target_info).map
    (fun st =>
      { st with
        background_color :=
          st.background_color.inherit_from parent_draw_context.background_color
        height := st.height.inherit_from parent_draw_context.height
        display := st.display.inherit_from parent_draw_context.display })

/-- C9: whenever the merged style (defaults, global rules, inline
style, attribute overrides) leaves `background_color` at `Inherit`,
the active style resolves it to the parent's active value. -/
theorem C9_background_inherit (e : Element) (g : GlobalDrawContext)
    (parent : ElementDrawContext) (anc : List ElementTargetInfo)
    (st : ElementDrawContext)
    (h : e.get_active_style_pre g parent anc = some st)
    (hbg : st.background_color = .Inherit) :
    ∃ r, e.get_active_style g parent anc = some r ∧
      r.background_color = parent.background_color := by
  refine ⟨_, by rw [Element.get_active_style, h]; rfl, ?_⟩
  simp only [hbg, NonInheritedField.inherit_from]

/-- The concrete child element of the C9 scenario: a `<span>` carrying
the inline style `background:inherit`. -/
def c9child : Element :=
  (Element.new SPAN |>.set_attributes [("style", "background:inherit")]).getD
    (Element.new SPAN)

/-- The parent active style of the C9 scenario: `background:blue`. -/
def c9parent : ElementDrawContext :=
  { DEFAULT_DRAW_CTX with background_color := .Specified (hex_to_rgb 0x0000FF) }

/-- An empty global context (no stylesheet rules, fresh tables). -/
def emptyGlobalCtx : GlobalDrawContext :=
  { global_style := [], unknown_sized_elements := [], interactables := [],
    forms := [] }

/-- C9 witness: a child with inline `background:inherit` inside a
parent whose background is blue resolves its background to blue. -/
theorem C9_background_inherit_witness :
    ∃ r, c9child.get_active_style emptyGlobalCtx c9parent
        [⟨"span", none, []⟩] = some r ∧
      r.background_color = .Specified (hex_to_rgb 0x0000FF) := by
  obtain ⟨r, hr, hbg⟩ := C9_background_inherit c9child emptyGlobalCtx c9parent
    [⟨"span", none, []⟩] _ rfl (by rfl)
  exact ⟨r, hr, by rw [hbg]; rfl⟩

/-- The concrete `<img>` element of the C3 scenario, carrying
`height="10"` and `width="7"` attributes. -/
def c3img : Element :=
  .mk ((get_element_type "img").getD DEFAULT_ELEMENT_TYPE) []
    [("height", "10"), ("width", "7")] DEFAULT_DRAW_CTX none []

/-- C3: the `<img height>` attribute is NOT divided by two by the code:
`height="10"` yields an active height of `Pixels 10`, not `Pixels 5`
as the claim (and the source's own comment about halving) states, while
`width="7"` yields `Pixels 7` as claimed. -/
theorem C3_img_height_not_halved :
    ∃ st, c3img.get_active_style emptyGlobalCtx DEFAULT_DRAW_CTX
        [⟨"img", none, []⟩] = some st ∧
      st.height = .Specified (.Pixels 10) ∧
      st.width = .Specified (.Pixels 7) ∧
      ¬st.height = .Specified (.Pixels 5) := by
  refine ⟨_, rfl, by decide, by decide, by decide⟩

/-- `pop_until` from `utils.rs`: pop items until the separator is found
(consuming it) or the buffer runs out; returns the popped items and the
remaining buffer. -/
def pop_until {α : Type} [DecidableEq α] (b : α) : List α → List α × List α
  | [] => ([], [])
  | x :: rest =>
    if x = b then ([], rest)
    else (x :: (pop_until b rest).1, (pop_until b rest).2)

/-- `pop_until_any` from `utils.rs`: pop until any of the separators is
found; returns the popped items, the separator hit (if any) and the
remaining buffer. -/
def pop_until_any {α : Type} [DecidableEq α] (bs : List α) :
    List α → List α × Option α × List α
  | [] => ([], none, [])
  | x :: rest =>
    if bs.contains x then ([], some x, rest)
    else (x :: (pop_until_any bs rest).1, (pop_until_any bs rest).2)

/-- The loop of `pop_until_all` from `utils.rs`, with `mi` the running
match index into the pattern.  A partially matched run that fails is
consumed but only its failing item is pushed to the popped list, and
the match index restarts at 0 without re-examining the failing item,
exactly as in the source.  (The `none` arm of the pattern lookup is
unreachable for the non-empty patterns every caller passes; the source
would panic on an empty pattern.) -/
def popUntilAllGo {α : Type} [DecidableEq α] (pat : List α) :
    List α → Nat → List α × List α
  | [], _ => ([], [])
  | x :: rest, mi =>
    match pat.get? mi with
    | some pi =>
      if pi = x then
        if pat.length ≤ mi + 1 then ([], rest)
        else popUntilAllGo pat rest (mi + 1)
      else (x :: (popUntilAllGo pat rest 0).1, (popUntilAllGo pat rest 0).2)
    | none => ([], rest)

/-- `pop_until_all` from `utils.rs`. -/
def pop_until_all {α : Type} [DecidableEq α] (a : List α) (pat : List α) :
    List α × List α :=
  popUntilAllGo pat a 0

/-- `next_is` from `utils.rs` (`last()` of the reversed buffer is the
head here). -/
def next_is {α : Type} [DecidableEq α] (a : List α) (b : α) : Bool :=
  match a with
  | x :: _ => x = b
  | [] => false

/-- `pop_until` never leaves more than it was given: popped plus rest
stay within the input. -/
theorem pop_until_length {α : Type} [DecidableEq α] (b : α) (a : List α) :
    (pop_until b a).1.length + (pop_until b a).2.length ≤ a.length := by
  induction a with
  | nil => simp [pop_until]
  | cons x rest ih =>
    simp only [pop_until]
    by_cases h : x = b
    · rw [if_pos h]
      simp only [List.length_nil, List.length_cons]
      omega
    · rw [if_neg h]
      simp only [List.length_cons]
      omega

/-- `pop_until_any` stays within the input, and consumes the hit
separator on top of the popped items when one is found. -/
theorem pop_until_any_length {α : Type} [DecidableEq α] (bs : List α)
    (a : List α) :
    ((pop_until_any bs a).1.length + (pop_until_any bs a).2.2.length ≤ a.length) ∧
      (∀ c, (pop_until_any bs a).2.1 = some c →
        (pop_until_any bs a).1.length + 1 + (pop_until_any bs a).2.2.length ≤ a.length) ∧
      ((pop_until_any bs a).2.1 = none → (pop_until_any bs a).2.2 = []) := by
  induction a with
  | nil => simp [pop_until_any]
  | cons x rest ih =>
    simp only [pop_until_any]
    by_cases h : bs.contains x
    · rw [if_pos h]
      refine ⟨by simp, fun c _ => by simp only [List.length_nil, List.length_cons]; omega,
        fun hc => by simp at hc⟩
    · rw [if_neg h]
      obtain ⟨ih1, ih2, ih3⟩ := ih
      refine ⟨by simp only [List.length_cons]; omega, fun c hc => ?_, fun hc => ?_⟩
      · have := ih2 c hc
        simp only [List.length_cons]
        omega
      · exact ih3 hc

/-- The `pop_until_all` loop stays within the input. -/
theorem popUntilAllGo_length {α : Type} [DecidableEq α] (pat : List α)
    (a : List α) : ∀ mi,
    (popUntilAllGo pat a mi).1.length + (popUntilAllGo pat a mi).2.length ≤
      a.length := by
  induction a with
  | nil => intro mi; simp [popUntilAllGo]
  | cons x rest ih =>
    intro mi
    simp only [popUntilAllGo]
    split
    · split
      · split
        · simp only [List.length_nil, List.length_cons]
          omega
        · have := ih (mi + 1)
          simp only [List.length_cons]
          omega
      · have := ih 0
        simp only [List.length_cons]
        omega
    · simp only [List.length_nil, List.length_cons]
      omega

/-- `pop_until_all` stays within the input. -/
theorem pop_until_all_length {α : Type} [DecidableEq α] (a pat : List α) :
    (pop_until_all a pat).2.length ≤ a.length := by
  have := popUntilAllGo_length pat a 0
  unfold pop_until_all
  omega

/-- `DataType` from `main.rs`. -/
inductive DataType where
  | PlainText | Image
deriving DecidableEq, Repr

/-- `WebpageDebugInfo` from `main.rs`. -/
structure WebpageDebugInfo where
  info_log : List String
  unknown_elements : List String
  fetch_queue : List (DataType × String)
  redirect_to : Option String
deriving DecidableEq, Repr

/-- `WebpageDebugInfo::default`. -/
def WebpageDebugInfo.empty : WebpageDebugInfo := ⟨[], [], [], none⟩

/-- `parsing.rs::get_element_type`: look the tag up; unknown tags map
to the default element type and are recorded (once) in the debug
record. -/
def get_element_type_dbg (name : String) (dbg : WebpageDebugInfo) :
    ElementType × WebpageDebugInfo :=
  match get_element_type name with
  | some t => (t, dbg)
  | none =>
    (DEFAULT_ELEMENT_TYPE,
      if dbg.unknown_elements.any (fun s => s == name) then dbg
      else { dbg with unknown_elements := dbg.unknown_elements ++ [name] })

/-- `element_type_to_datatype` from `parsing.rs`. -/
def element_type_to_datatype (ty : String) : Option DataType :=
  if ty = "img" then some DataType.Image else none

/-- `ParseState` from `parsing.rs`. -/
inductive ParseState where
  | InElementType (name : String) (attributes : List (String × String))
  | WaitingForElement

/-- Result of the parser: `none` is the panic channel, otherwise the
parsed sibling list, the remaining buffer and the debug record. -/
def ParseOut : Type := Option (List Element × List Char × WebpageDebugInfo)

/-- The buffer-length bound the parser maintains: whatever buffer it
returns is no longer than the buffer it consumed. -/
def ParseBound (n : Nat) : ParseOut → Prop
  | none => True
  | some x => x.2.1.length ≤ n

/-- Weakening of the parser bound. -/
theorem ParseBound.mono {n m : Nat} (h : n ≤ m) {r : ParseOut} :
    ParseBound n r → ParseBound m r := by
  cases r with
  | none => intro; trivial
  | some x => intro hx; exact Nat.le_trans hx h

/-- The helper building the debug record's fetch queue entry for
elements with a `src` attribute (`parse` in `parsing.rs`). -/
def pushFetch (attributes : List (String × String)) (tyname : String)
    (dbg : WebpageDebugInfo) : WebpageDebugInfo :=
  match lookupAttr attributes "src", element_type_to_datatype tyname with
  | some src, some dt => { dbg with fetch_queue := dbg.fetch_queue ++ [(dt, src)] }
  | _, _ => dbg

/-- `parse` from `parsing.rs`, one loop iteration per recursive call.
The Rust `while let Some(char) = buf.pop()` loop with its two-state
machine is unrolled into recursion on the buffer; child scopes recurse
with the shared buffer, and the subtype carries the invariant that the
returned buffer never exceeds the input buffer, which also provides
well-foundedness.  `none` propagates the panic of
`Element::set_attributes` (CSS color parsing). -/
def parseLoop : (buf : List Char) → ParseState → List Element →
    WebpageDebugInfo → {r : ParseOut // ParseBound buf.length r}
  | [], _st, els, dbg => ⟨some (els, [], dbg), by simp [ParseBound]⟩
  | char :: rest, st, els, dbg =>
    match st with
    | .InElementType name attributes =>
      if char = '>' then
        let g := get_element_type_dbg (trimStr name) dbg
        let dbg2 := pushFetch attributes g.1.name g.2
        match Element.set_attributes (Element.new g.1) attributes with
        | none => ⟨none, trivial⟩
        | some element1 =>
          if !g.1.void_element && !g.1.stops_parsing then
            have hlt0 : rest.length < (char :: rest).length := by
              simp only [List.length_cons]; omega
            let res := parseLoop rest .WaitingForElement [] dbg2
            match hres : res.val with
            | none => ⟨none, trivial⟩
            | some x =>
              have hb : x.2.1.length ≤ rest.length := by
                have hp := res.prop
                rw [hres] at hp
                exact hp
              have hlt : x.2.1.length < (char :: rest).length := by
                simp only [List.length_cons]; omega
              let element2 := Element.mk element1.ty x.1 element1.attributes
                element1.style element1.text element1.classes
              let r := parseLoop x.2.1 .WaitingForElement (els ++ [element2]) x.2.2
              ⟨r.val, ParseBound.mono (Nat.le_of_lt hlt) r.prop⟩
          else if g.1.stops_parsing then
            let pua := pop_until_all rest ('<' :: '/' :: (name.data ++ ['>']))
            have hlt : pua.2.length < (char :: rest).length := by
              have h1 : pua.2.length ≤ rest.length :=
                pop_until_all_length rest ('<' :: '/' :: (name.data ++ ['>']))
              simp only [List.length_cons]; omega
            let element2 := Element.mk element1.ty element1.children
              element1.attributes element1.style (some (String.mk pua.1))
              element1.classes
            let r := parseLoop pua.2 .WaitingForElement (els ++ [element2]) dbg2
            ⟨r.val, ParseBound.mono (Nat.le_of_lt hlt) r.prop⟩
          else
            have hlt : rest.length < (char :: rest).length := by
              simp only [List.length_cons]; omega
            let r := parseLoop rest .WaitingForElement (els ++ [element1]) dbg2
            ⟨r.val, ParseBound.mono (Nat.le_of_lt hlt) r.prop⟩
      else if char = '/' then
        let g := get_element_type_dbg (trimStr name) dbg
        let dbg2 := pushFetch attributes g.1.name g.2
        match Element.set_attributes (Element.new g.1) attributes with
        | none => ⟨none, trivial⟩
        | some element1 =>
          have hlt : rest.tail.length < (char :: rest).length := by
            have : rest.tail.length ≤ rest.length := by cases rest <;> simp
            simp only [List.length_cons]; omega
          let r := parseLoop rest.tail .WaitingForElement (els ++ [element1]) dbg2
          ⟨r.val, ParseBound.mono (Nat.le_of_lt hlt) r.prop⟩
      else if char.isWhitespace then
        let pua := pop_until_any ['=', '/', '>'] rest
        match hf : pua.2.1 with
        | none =>
          have h0 : pua.2.2.length < (char :: rest).length := by
            have h1 : pua.2.2 = [] :=
              (pop_until_any_length ['=', '/', '>'] rest).2.2 hf
            rw [h1]
            simp only [List.length_nil, List.length_cons]; omega
          let r := parseLoop pua.2.2 (.InElementType name attributes) els dbg
          ⟨r.val, ParseBound.mono (Nat.le_of_lt h0) r.prop⟩
        | some endv =>
          have hfound : pua.1.length + 1 + pua.2.2.length ≤ rest.length :=
            (pop_until_any_length ['=', '/', '>'] rest).2.1 endv hf
          if hev : endv = '=' then
            match hrr : pua.2.2 with
            | [] =>
              have hlt : ([] : List Char).length < (char :: rest).length := by
                simp
              let r := parseLoop [] (.InElementType name attributes) els dbg
              ⟨r.val, ParseBound.mono (Nat.le_of_lt hlt) r.prop⟩
            | c :: rest2 =>
              have hrr2 : pua.2.2.length = rest2.length + 1 := by
                rw [hrr]; simp
              if hq : c ≠ '"' ∧ c ≠ '\'' then
                let puv := pop_until_any [' ', '>'] (c :: rest2)
                let key2 := trimStr (String.mk pua.1)
                let value2 := trimStr (String.mk puv.1)
                if hh : puv.2.1 = some '>' then
                  have hv : puv.1.length + 1 + puv.2.2.length ≤ (c :: rest2).length :=
                    (pop_until_any_length [' ', '>'] (c :: rest2)).2.1 '>' hh
                  have hlt : ('>' :: puv.2.2).length < (char :: rest).length := by
                    simp only [List.length_cons] at hv hfound ⊢
                    omega
                  let r := parseLoop ('>' :: puv.2.2)
                    (.InElementType name (insertAttr attributes key2 value2)) els dbg
                  ⟨r.val, ParseBound.mono (Nat.le_of_lt hlt) r.prop⟩
                else
                  have hv : puv.1.length + puv.2.2.length ≤ (c :: rest2).length :=
                    (pop_until_any_length [' ', '>'] (c :: rest2)).1
                  have hlt : puv.2.2.length < (char :: rest).length := by
                    simp only [List.length_cons] at hv hfound ⊢
                    omega
                  let r := parseLoop puv.2.2
                    (.InElementType name (insertAttr attributes key2 value2)) els dbg
                  ⟨r.val, ParseBound.mono (Nat.le_of_lt hlt) r.prop⟩
              else
                let pv := pop_until c rest2
                let key2 := trimStr (String.mk pua.1)
                have hv : pv.1.length + pv.2.length ≤ rest2.length :=
                  pop_until_length c rest2
                have hlt : pv.2.length < (char :: rest).length := by
                  simp only [List.length_cons] at hfound ⊢
                  omega
                let r := parseLoop pv.2
                  (.InElementType name
                    (insertAttr attributes key2 (trimStr (String.mk pv.1)))) els dbg
                ⟨r.val, ParseBound.mono (Nat.le_of_lt hlt) r.prop⟩
          else
            have hlt : (endv :: pua.2.2).length < (char :: rest).length := by
              simp only [List.length_cons] at hfound ⊢
              omega
            let r := parseLoop (endv :: pua.2.2)
              (.InElementType name
                (insertAttr attributes (trimStr (String.mk pua.1)) "")) els dbg
            ⟨r.val, ParseBound.mono (Nat.le_of_lt hlt) r.prop⟩
      else
        have hlt : rest.length < (char :: rest).length := by
          simp only [List.length_cons]; omega
        let r := parseLoop rest
          (.InElementType (String.mk (name.data ++ [char])) attributes) els dbg
        ⟨r.val, ParseBound.mono (Nat.le_of_lt hlt) r.prop⟩
    | .WaitingForElement =>
      if char = '<' then
        if next_is rest '/' then
          have hb : (pop_until '>' rest).2.length ≤ (char :: rest).length := by
            have := pop_until_length '>' rest
            simp only [List.length_cons]
            omega
          ⟨some (els, (pop_until '>' rest).2, dbg), hb⟩
        else if next_is rest '!' then
          match htl : rest.tail with
          | [] =>
            have hlt : ([] : List Char).length < (char :: rest).length := by simp
            let r := parseLoop [] .WaitingForElement els dbg
            ⟨r.val, ParseBound.mono (Nat.le_of_lt hlt) r.prop⟩
          | c2 :: r2 =>
            have hr2 : r2.length + 2 ≤ (char :: rest).length := by
              have h1 : rest.tail.length ≤ rest.length := by cases rest <;> simp
              rw [htl] at h1
              simp only [List.length_cons] at h1 ⊢
              omega
            if c2 = '-' then
              match r2 with
              | [] =>
                have hlt : ([] : List Char).length < (char :: rest).length := by simp
                let r := parseLoop [] .WaitingForElement els dbg
                ⟨r.val, ParseBound.mono (Nat.le_of_lt hlt) r.prop⟩
              | c3 :: r3 =>
                if c3 = '-' then
                  let pua := pop_until_all r3 ['-', '-', '>']
                  have hlt : pua.2.length < (char :: rest).length := by
                    have h1 : pua.2.length ≤ r3.length :=
                      pop_until_all_length r3 ['-', '-', '>']
                    simp only [List.length_cons] at hr2 ⊢
                    omega
                  let r := parseLoop pua.2 .WaitingForElement els dbg
                  ⟨r.val, ParseBound.mono (Nat.le_of_lt hlt) r.prop⟩
                else
                  let pu := pop_until '>' r3
                  have hlt : pu.2.length < (char :: rest).length := by
                    have h1 : pu.1.length + pu.2.length ≤ r3.length :=
                      pop_until_length '>' r3
                    simp only [List.length_cons] at hr2 ⊢
                    omega
                  let r := parseLoop pu.2 .WaitingForElement els dbg
                  ⟨r.val, ParseBound.mono (Nat.le_of_lt hlt) r.prop⟩
            else
              let pu := pop_until '>' r2
              have hlt : pu.2.length < (char :: rest).length := by
                have h1 : pu.1.length + pu.2.length ≤ r2.length :=
                  pop_until_length '>' r2
                simp only [List.length_cons] at hr2 ⊢
                omega
              let r := parseLoop pu.2 .WaitingForElement els dbg
              ⟨r.val, ParseBound.mono (Nat.le_of_lt hlt) r.prop⟩
        else
          have hlt : rest.length < (char :: rest).length := by
            simp only [List.length_cons]; omega
          let r := parseLoop rest (.InElementType "" []) els dbg
          ⟨r.val, ParseBound.mono (Nat.le_of_lt hlt) r.prop⟩
      else
        let els2 := match els.getLast? with
          | some lastEl =>
            match lastEl.text with
            | some t =>
              els.dropLast ++ [Element.mk lastEl.ty lastEl.children
                lastEl.attributes lastEl.style
                (some (String.mk (t.data ++ [char]))) lastEl.classes]
            | none =>
              els ++ [Element.mk NODE [] [] DEFAULT_DRAW_CTX
                (some (String.mk [char])) []]
          | none =>
            els ++ [Element.mk NODE [] [] DEFAULT_DRAW_CTX
              (some (String.mk [char])) []]
        have hlt : rest.length < (char :: rest).length := by
          simp only [List.length_cons]; omega
        let r := parseLoop rest .WaitingForElement els2 dbg
        ⟨r.val, ParseBound.mono (Nat.le_of_lt hlt) r.prop⟩
termination_by buf _ _ _ => buf.length
decreasing_by all_goals assumption

/-- `parse` from `parsing.rs`: run the loop from the
`WaitingForElement` state on the whole buffer. -/
def parse (buf : List Char) (dbg : WebpageDebugInfo) : ParseOut :=
  (parseLoop buf .WaitingForElement [] dbg).val

/-- C8: the HTML parser does NOT absorb every malformed input: the
inline style `style=color:rgb` reaches `parse_color`, whose
`parse_rgb_text` slices `&text[4..text.len()-1]` out of range and
panics, so `parse` crashes (`none`) instead of returning the
accumulated elements. -/
theorem C8_parse_panics_on_malformed_style :
    (parse "<b style=color:rgb>".data WebpageDebugInfo.empty).isSome = false := by
  simp [parse, parseLoop, next_is, pop_until_any, pop_until, pop_until_all,
    popUntilAllGo, insertAttr, trimStr, trimChars, lookupAttr,
    Element.set_attributes, Element.new, parse_ruleset, splitOnChar,
    try_apply_rule, splitOnceChar, parse_color, parse_rgb_text,
    startsWithStr, get_element_type_dbg, get_element_type, ELEMENT_TYPES,
    pushFetch, element_type_to_datatype, String.mk]

/-- C10: the parser terminates on every finite buffer; each helper pop
routine consumes at least what it returns, and the parser never
returns a longer buffer than it was handed (the well-founded measure of
its recursion).  The totality of `parseLoop` itself — accepted by the
termination checker on the buffer length — is the termination claim. -/
theorem C10_parser_termination_invariant :
    (∀ (b : Char) (a : List Char),
      (pop_until b a).1.length + (pop_until b a).2.length ≤ a.length) ∧
    (∀ (bs a : List Char),
      (pop_until_any bs a).1.length + (pop_until_any bs a).2.2.length ≤ a.length) ∧
    (∀ (a pat : List Char), (pop_until_all a pat).2.length ≤ a.length) ∧
    (∀ (buf : List Char) (st : ParseState) (els : List Element)
      (dbg : WebpageDebugInfo),
      ParseBound buf.length (parseLoop buf st els dbg).val) ∧
    (∀ (buf : List Char) (dbg : WebpageDebugInfo),
      ParseBound buf.length (parse buf dbg)) :=
  ⟨fun b a => pop_until_length b a,
    fun bs a => (pop_until_any_length bs a).1,
    fun a pat => pop_until_all_length a pat,
    fun buf st els dbg => (parseLoop buf st els dbg).prop,
    fun buf dbg => (parseLoop buf .WaitingForElement [] dbg).prop⟩

/-- `DrawCall` from `main.rs` (image sources are the strings held by
the draw calls in `element.rs`). -/
inductive DrawCall where
  | Image (x y : Nat) (w h : ActualMeasurement) (src : String)
  | Rect (x y : Nat) (w h : ActualMeasurement) (c : Color)
  | Text (x y : Nat) (s : String) (ctx : ElementDrawContext)
      (pw : ActualMeasurement) (pint : Option Nat)
  | DrawInput (x y : Nat) (w h : ActualMeasurement) (i : Nat) (t : String)
  | ClearColor (c : Color)
deriving DecidableEq, Repr

/-- `DrawCall::order` from `main.rs`. -/
def DrawCall.order : DrawCall → Nat
  | .ClearColor _ => 0
  | .Rect _ _ _ _ _ => 1
  | .Image _ _ _ _ _ => 2
  | .DrawInput _ _ _ _ _ _ => 3
  | .Text _ _ _ _ _ _ => 4

/-- The sort in `Toad::draw_current_page`
(`draw_calls.sort_by_key(|a| a.order())`): Rust's `sort_by_key` is a
stable sort by the key, modelled by a stable merge sort under the same
comparison. -/
def sortDrawCalls (l : List DrawCall) : List DrawCall :=
  l.mergeSort (fun a b => decide (a.order ≤ b.order))

/-- C6: before rasterization the draw-call list is sorted by the layer
order `ClearColor=0 < Rect=1 < Image=2 < Input=3 < Text=4`, the sorted
list is a permutation of the input, and the sort is stable: for every
layer value, the subsequence of calls with that order is exactly the
input's subsequence, so equal-order calls keep their relative input
order. -/
theorem C6_draw_call_sort (l : List DrawCall) :
    ((∀ c, (DrawCall.ClearColor c).order = 0) ∧
      (∀ x y w h c, (DrawCall.Rect x y w h c).order = 1) ∧
      (∀ x y w h s, (DrawCall.Image x y w h s).order = 2) ∧
      (∀ x y w h i t, (DrawCall.DrawInput x y w h i t).order = 3) ∧
      (∀ x y s ctx pw pint, (DrawCall.Text x y s ctx pw pint).order = 4)) ∧
    List.Pairwise (fun a b => a.order ≤ b.order) (sortDrawCalls l) ∧
    (sortDrawCalls l).Perm l ∧
    ∀ k, (sortDrawCalls l).filter (fun c => c.order == k) =
      l.filter (fun c => c.order == k) := by
  have htrans : ∀ (a b c : DrawCall),
      decide (a.order ≤ b.order) = true → decide (b.order ≤ c.order) = true →
        decide (a.order ≤ c.order) = true := by
    intro a b c hab hbc
    simp only [decide_eq_true_eq] at hab hbc ⊢
    omega
  have htotal : ∀ (a b : DrawCall),
      (decide (a.order ≤ b.order) || decide (b.order ≤ a.order)) = true := by
    intro a b
    simp only [Bool.or_eq_true, decide_eq_true_eq]
    omega
  refine ⟨⟨fun _ => rfl, fun _ _ _ _ _ => rfl, fun _ _ _ _ _ => rfl,
    fun _ _ _ _ _ _ => rfl, fun _ _ _ _ _ _ => rfl⟩, ?_, ?_, ?_⟩
  · have := List.sorted_mergeSort htrans htotal l
    exact this.imp (by simp only [decide_eq_true_eq]; exact fun h => h)
  · exact List.mergeSort_perm l _
  · intro k
    have hpair : List.Pairwise
        (fun a b => decide (a.order ≤ b.order) = true)
        (l.filter (fun c => c.order == k)) := by
      apply List.pairwise_of_forall_mem_list
      intro a ha b hb
      have ha2 := (List.mem_filter.mp ha).2
      have hb2 := (List.mem_filter.mp hb).2
      simp only [beq_iff_eq] at ha2 hb2
      simp only [decide_eq_true_eq, ha2, hb2, le_refl]
    have hsub : (l.filter (fun c => c.order == k)).Sublist
        (sortDrawCalls l) :=
      List.sublist_mergeSort htrans htotal hpair (List.filter_sublist l)
    have hsub2 : ((l.filter (fun c => c.order == k)).filter
        (fun c => c.order == k)).Sublist
        ((sortDrawCalls l).filter (fun c => c.order == k)) :=
      List.Sublist.filter _ hsub
    rw [List.filter_filter] at hsub2
    simp only [Bool.and_self] at hsub2
    have hlen : ((sortDrawCalls l).filter (fun c => c.order == k)).length =
        (l.filter (fun c => c.order == k)).length :=
      ((List.mergeSort_perm l _).filter _).length_eq
    exact (hsub2.eq_of_length hlen.symm).symm

/-- `DrawData` from `element.rs`. -/
structure DrawData where
  draw_calls : List DrawCall
  content_width : Nat
  content_height : Nat
  parent_width : ActualMeasurement
  parent_height : ActualMeasurement
  x : Nat
  y : Nat
  parent_interactable : Option Nat
  parent_form : Option Nat
  ancestors_target_info : List ElementTargetInfo
  last_item_height : Nat
  last_was_inline_and_sized : Bool
deriving Repr

/-- `Default for DrawData` (note the `ActualMeasurement` default is
`Waiting(999)`). -/
def DrawData.empty : DrawData :=
  { draw_calls := []
    content_width := 0
    content_height := 0
    parent_width := ActualMeasurement.default
    parent_height := ActualMeasurement.default
    x := 0
    y := 0
    parent_interactable := none
    parent_form := none
    ancestors_target_info := []
    last_item_height := 0
    last_was_inline_and_sized := false }

/-- Rust's saturating `as u16` cast on an `f32` value (truncation
toward zero, clamped to the `u16` range), on the `Rat` model. -/
def as_u16 (q : Rat) : Nat := min (max q.floor 0).toNat 65535

/-- `actualize` from `element.rs`: resolve a `Measurement` to an
`ActualMeasurement`, appending an unfulfilled entry to the
unknown-sized table (and returning `Waiting` on it) for fit-content
sizes whose content is not yet known. -/
def actualize (a : Measurement) (draw_data : DrawData)
    (t : List (Option ActualMeasurement)) (content_size_known : Bool) :
    ActualMeasurement × List (Option ActualMeasurement) :=
  match a with
  | .Pixels pixels => (.Pixels pixels, t)
  | .FitContentHeight =>
    if content_size_known then (.Pixels draw_data.content_height, t)
    else (.Waiting t.length, t ++ [none])
  | .FitContentWidth =>
    if content_size_known then (.Pixels draw_data.content_width, t)
    else (.Waiting t.length, t ++ [none])
  | .PercentHeight percent =>
    (match draw_data.parent_height with
      | .Pixels pixels => .Pixels (as_u16 ((pixels : Rat) * percent))
      | .PercentOfUnknown index p => .PercentOfUnknown index (percent * p)
      | .Waiting index => .PercentOfUnknown index percent, t)
  | .PercentWidth percent =>
    (match draw_data.parent_width with
      | .Pixels pixels => .Pixels (as_u16 ((pixels : Rat) * percent))
      | .PercentOfUnknown index p => .PercentOfUnknown index (percent * p)
      | .Waiting index => .PercentOfUnknown index percent, t)

/-- `actualize_actual` from `main.rs`, with fuel for the (unbounded in
general) `PercentOfUnknown` chain; `none` models the panics (index out
of range, `unwrap` of an unfilled entry, the explicit
`Unresolved ActualMeasurement::Waiting` panic) and fuel exhaustion. -/
def actualizeActualFuel : Nat → ActualMeasurement →
    List (Option ActualMeasurement) → Option Nat
  | 0, _, _ => none
  | _ + 1, .Pixels p, _ => some p
  | fuel + 1, .PercentOfUnknown i p, t =>
    match t.get? i with
    | none => none
    | some none => none
    | some (some a) =>
      (actualizeActualFuel fuel a t).map (fun px => as_u16 ((px : Rat) * p))
  | _ + 1, .Waiting i, t =>
    match t.get? i with
    | none => none
    | some none => none
    | some (some (.Pixels p)) => some p
    | some (some _) => none

/-- `actualize_actual` from `main.rs`. -/
def actualize_actual (a : ActualMeasurement)
    (t : List (Option ActualMeasurement)) : Option Nat :=
  actualizeActualFuel (t.length + 1) a t

/-- Rust `str::replace` (non-overlapping, left to right) on character
lists; the pattern is never empty at any call site. -/
def replaceList (pat rep : List Char) : List Char → List Char
  | [] => []
  | c :: rest =>
    if h : pat.isPrefixOf (c :: rest) ∧ pat ≠ [] then
      rep ++ replaceList pat rep ((c :: rest).drop pat.length)
    else c :: replaceList pat rep rest
termination_by l => l.length
decreasing_by
  · have hp : pat.length ≤ (c :: rest).length :=
      (List.isPrefixOf_iff_prefix.mp h.1).length_le
    have h1 : pat.length ≥ 1 := by
      cases pat with
      | nil => exact absurd rfl h.2
      | cons a b => simp
    simp only [List.length_drop, List.length_cons] at hp ⊢
    omega
  · simp only [List.length_cons]
    omega

/-- One pass of `parse_unicode` from `parsing.rs`: replace each
`&#nnnn;` (1-4 digits, per the regex) by the character with that code.
(The hex pass of the source is the identity: its replacement parses the
captured text including the leading `x` with `from_str_radix`, which
always fails, so the match is re-emitted unchanged.) -/
def replaceDecimalEntities : List Char → List Char
  | [] => []
  | '&' :: '#' :: rest2 =>
    let run := rest2.takeWhile Char.isDigit
    let d := run.length
    if 1 ≤ d ∧ d ≤ 4 ∧ rest2.get? d = some ';' then
      let parsed := (rest2.take d).foldl (fun n c => n * 10 + (c.toNat - 48)) 0
      if parsed.isValidChar then
        Char.ofNat parsed :: replaceDecimalEntities (rest2.drop (d + 1))
      else
        '&' :: '#' :: (rest2.take d ++ [';']) ++
          replaceDecimalEntities (rest2.drop (d + 1))
    else '&' :: replaceDecimalEntities ('#' :: rest2)
  | c :: rest => c :: replaceDecimalEntities rest
termination_by l => l.length
decreasing_by
  all_goals simp only [List.length_drop, List.length_cons]
  all_goals omega

/-- `parse_special` from `parsing.rs`: decode `&amp; &lt; &gt; &quot;`
and decimal character references. -/
def parse_special (text : String) : String :=
  String.mk (replaceDecimalEntities
    (replaceList "&quot;".data "\"".data
      (replaceList "&gt;".data ">".data
        (replaceList "&lt;".data "<".data
          (replaceList "&amp;".data "&".data text.data)))))

/-- The character loop of `disrespect_whitespace` from `element.rs`. -/
def dwGo : List Char → Bool → List Char
  | [], _ => []
  | c :: rest, last =>
    if c.isWhitespace then
      if last then dwGo rest last
      else c :: dwGo rest true
    else c :: dwGo rest false

/-- `disrespect_whitespace` from `element.rs`: drop newlines and
carriage returns, collapse whitespace runs, and allow or forbid a
leading whitespace. -/
def disrespect_whitespace (text : String) (allow_leading : Bool) : String :=
  String.mk (dwGo (text.data.filter (fun c => ¬(c = '\n' ∨ c = '\r')))
    (!allow_leading))

/-- `is_whitespace` from `element.rs`. -/
def is_whitespace (text : String) : Bool := text.data.all Char.isWhitespace

/-- The wrapped-text emission loop of the `node` branch of
`Element::draw`: one `Text` draw call per line, advancing the cursor,
tracking whether any non-empty line was seen. -/
def textLoop (cw : Char → Nat) (style : ElementDrawContext)
    (pw : ActualMeasurement) (pint : Option Nat) :
    List (List Char) → DrawData → Bool → DrawData × Bool
  | [], dd, any_text => (dd, any_text)
  | line :: rest, dd, any_text =>
    let len := (line.map cw).sum
    let any2 := any_text || decide (len ≠ 0)
    let dd2 := { dd with
      draw_calls := dd.draw_calls ++
        [DrawCall.Text dd.x dd.y (String.mk line) style pw pint] }
    let dd3 := { dd2 with x := dd2.x + len * EM }
    let dd4 := { dd3 with content_width := max dd3.content_width dd3.x }
    let dd5 := if rest ≠ [] then { dd4 with x := 0, y := dd4.y + LH } else dd4
    textLoop cw style pw pint rest dd5 any2

/-- The `node` (text element) branch of `Element::draw`: skip
whitespace-only text unless whitespace is respected, collapse or keep
whitespace, decode character references, wrap, and emit the lines. -/
def drawNode (cw : Char → Nat) (style : ElementDrawContext)
    (is_display_block : Bool) (txt : Option String) (dd : DrawData) :
    DrawData :=
  match txt with
  | none => dd
  | some text =>
    if !is_whitespace text || style.respect_whitespace then
      let text2 := if style.respect_whitespace then text
        else disrespect_whitespace text dd.last_was_inline_and_sized
      let text3 := parse_special text2
      let lines := fit_text_in_width text3.data dd.parent_width dd.x
      let tl := textLoop cw style dd.parent_width dd.parent_interactable lines
        dd false
      let dd2 := { tl.1 with
        content_height := max tl.1.content_height (tl.1.y + LH) }
      { dd2 with last_was_inline_and_sized := !is_display_block && tl.2 }
    else dd

/-- The "make sure there never exists any unfulfilled Waiting promise"
blocks of the `img` and `input`/`button` branches of `Element::draw`:
force a `Waiting` size to zero pixels and fill its table entry. -/
def fillWaiting (a : ActualMeasurement)
    (t : List (Option ActualMeasurement)) :
    ActualMeasurement × List (Option ActualMeasurement) :=
  match a with
  | .Waiting wi => (.Pixels 0, t.set wi (some (.Pixels 0)))
  | _ => (a, t)

/-- The `<a href>` / `<form action>` interactable and form registration
of `Element::draw`; returns the updated global context, the element's
interactable index and its form index. -/
def registerElement (e : Element) (g : GlobalDrawContext) (dd : DrawData) :
    GlobalDrawContext × Option Nat × Option Nat :=
  if e.ty.name = "a" then
    match e.get_attribute "href" with
    | some link =>
      ({ g with interactables := g.interactables ++ [.Link link] },
        some g.interactables.length, dd.parent_form)
    | none => (g, dd.parent_interactable, dd.parent_form)
  else if e.ty.name = "form" then
    match e.get_attribute "action" with
    | some action =>
      let method := match (e.get_attribute "method").map parse_method with
        | some (some m) => m
        | _ => Method.GET
      ({ g with forms := g.forms ++ [⟨action, method, []⟩] },
        dd.parent_interactable, some g.forms.length)
    | none => (g, dd.parent_interactable, dd.parent_form)
  else (g, dd.parent_interactable, dd.parent_form)

/-- The `img` branch of `Element::draw` after the sizes were
actualized: fill any `Waiting` promise with zero, emit an `Image` call
when a source is known and both sizes are positive, advance the
cursor. -/
def drawImg (src : Option String) (is_display_block : Bool)
    (aw ah : ActualMeasurement) (g : GlobalDrawContext) (dd : DrawData) :
    GlobalDrawContext × DrawData :=
  let fw := fillWaiting aw g.unknown_sized_elements
  let fh := fillWaiting ah fw.2
  let aw2 := fw.1
  let ah2 := fh.1
  let g2 := { g with unknown_sized_elements := fh.2 }
  let dd2 := match src with
    | some source =>
      if 0 < aw2.get_pixels_lossy ∧ 0 < ah2.get_pixels_lossy then
        { dd with
          draw_calls := dd.draw_calls ++
            [DrawCall.Image dd.x dd.y aw2 ah2 source]
          content_width := max dd.content_width aw2.get_pixels_lossy
          content_height := max dd.content_height ah2.get_pixels_lossy }
      else dd
    | none => dd
  let dd3 := { dd2 with
    last_was_inline_and_sized := false
    x := dd2.x + aw2.get_pixels_lossy }
  let dd4 := if is_display_block then
      match ah2.get_pixels with
      | some h => if 0 < h then { dd3 with y := dd3.y + h, x := 0 } else dd3
      | none => dd3
    else dd3
  (g2, dd4)

/-- The `Input` draw-call emission shared by the recognized input
types: bump the content size, push the call, advance the cursor and the
last item height. -/
def inputEmit (idx : Nat) (txt : String) (is_display_block : Bool)
    (ah2 : ActualMeasurement) (width height : Nat) (g3 : GlobalDrawContext)
    (dd : DrawData) : GlobalDrawContext × DrawData :=
  let dd2 := { dd with
    content_width := max dd.content_width width
    content_height := max dd.content_height (dd.y + height)
    draw_calls := dd.draw_calls ++
      [DrawCall.DrawInput dd.x dd.y (.Pixels width) (.Pixels height) idx txt] }
  let dd3 := { dd2 with
    last_was_inline_and_sized := false
    x := dd2.x + width }
  let dd4 := match ah2.get_pixels with
    | some h =>
      if is_display_block ∧ 0 < h then
        { dd3 with last_item_height := 0, y := dd3.y + h, x := 0 }
      else { dd3 with last_item_height := height }
    | none => { dd3 with last_item_height := height }
  (g3, dd4)

/-- The `input`/`button` branch of `Element::draw` (reached when a
`type` attribute is present) after the sizes were actualized: fill any
`Waiting` promise with zero, then emit an `Input` draw call and
register the matching interactable when inside a form and the type is
recognized (text-like types need a `name` attribute or the element is
skipped entirely). -/
def drawInputEl (e : Element) (tyv : String) (self_form : Option Nat)
    (is_display_block : Bool) (aw ah : ActualMeasurement)
    (g : GlobalDrawContext) (dd : DrawData) :
    GlobalDrawContext × DrawData :=
  let fw := fillWaiting aw g.unknown_sized_elements
  let fh := fillWaiting ah fw.2
  let ah2 := fh.1
  let g2 := { g with unknown_sized_elements := fh.2 }
  match self_form with
  | some form =>
    if e.ty.name ≠ "button" ∨ tyv = "submit" then
      let width := max (fw.1.get_pixels_lossy) (10 * EM)
      let height := max (ah2.get_pixels_lossy) (3 * LH)
      if tyv = "text" ∨ tyv = "search" ∨ tyv = "email" ∨ tyv = "number" ∨
          tyv = "password" then
        match e.get_attribute "name" with
        | none => (g2, dd)
        | some nm =>
          inputEmit g2.interactables.length
            ((e.get_attribute "value").getD
              ((e.get_attribute "placeholder").getD "Input..."))
            is_display_block ah2 width height
            { g2 with interactables := g2.interactables ++
              [.InputText form nm (width / EM - 2) none] } dd
      else if tyv = "submit" then
        inputEmit g2.interactables.length
          (match e.get_attribute "value" with
            | some v => if v ≠ "" then v else "Submit"
            | none => "Submit")
          is_display_block ah2 width height
          { g2 with interactables := g2.interactables ++ [.InputSubmit form] } dd
      else (g2, dd)
    else (g2, dd)
  | none => (g2, dd)

/-- The child coordinate translation of `Element::draw`: shift a draw
call by the parent's cursor (the `ClearColor` call carries no
position). -/
def translateCall (dx dy : Nat) : DrawCall → DrawCall
  | .Rect x y w h c => .Rect (x + dx) (y + dy) w h c
  | .Image x y w h s => .Image (x + dx) (y + dy) w h s
  | .Text x y s st pw pint => .Text (x + dx) (y + dy) s st pw pint
  | .DrawInput x y w h i t => .DrawInput (x + dx) (y + dy) w h i t
  | .ClearColor c => .ClearColor c

/-- The tail of the generic branch of `Element::draw`, after children
were drawn and their calls translated: re-actualize `Waiting` sizes
with the content size now known and fill their table entries, override
a too-small height by the content height, emit the block background
rectangle, advance the cursor, and append the children's draw calls. -/
def finishGeneric (style : ElementDrawContext) (is_body is_display_block : Bool)
    (aw ah : ActualMeasurement) (g : GlobalDrawContext) (cd : DrawData)
    (dd : DrawData) : GlobalDrawContext × DrawData :=
  let rw : ActualMeasurement × List (Option ActualMeasurement) :=
    match aw with
    | .Waiting index =>
      let ar := actualize (style.width.unwrap_or (.Pixels 0)) cd
        g.unknown_sized_elements true
      (ar.1, ar.2.set index (some ar.1))
    | _ => (aw, g.unknown_sized_elements)
  let aw2 := rw.1
  let rh : ActualMeasurement × List (Option ActualMeasurement) :=
    match ah with
    | .Waiting index =>
      let ar := actualize (style.height.unwrap_or (.Pixels 0)) cd rw.2 true
      (ar.1, ar.2.set index (some ar.1))
    | _ => (ah, rw.2)
  let g2 := { g with unknown_sized_elements := rh.2 }
  let ah3 := if rh.1.get_pixels_lossy < cd.content_height then
      ActualMeasurement.Pixels cd.content_height
    else rh.1
  let dd2 := if !is_body && is_display_block then
      match style.background_color with
      | .Specified color =>
        { dd with draw_calls := dd.draw_calls ++
          [DrawCall.Rect dd.x dd.y aw2 ah3 color] }
      | _ => dd
    else dd
  let width := aw2.get_pixels_lossy
  let height := ah3.get_pixels_lossy
  let dd3 := { dd2 with
    content_width := max dd2.content_width width
    content_height := max dd2.content_height height }
  let dd4 := { dd3 with x := dd3.x + width }
  let dd5 := if is_display_block then
      { dd4 with last_item_height := 0, y := dd4.y + height, x := 0 }
    else { dd4 with last_item_height := height }
  let dd6 := { dd5 with
    last_was_inline_and_sized := !is_display_block && decide (0 < width)
    draw_calls := dd5.draw_calls ++ cd.draw_calls }
  (g2, dd6)

/-- The `<li>` prefix emission of `Element::draw` into the fresh child
draw data. -/
def liPrefix (cw : Char → Nat) (parent_ctx style : ElementDrawContext)
    (tyname : String) (yy : Nat) (cd : DrawData) : DrawData :=
  if tyname = "li" then
    match parent_ctx.textPrefix with
    | some pre =>
      let text := match pre with
        | .Dot => "• "
        | .Number => toString (yy / LH + 1) ++ ". "
      let width := (text.data.map cw).sum * EM
      let cd2 := { cd with draw_calls := cd.draw_calls ++
        [DrawCall.Text 0 0 text style cd.parent_width none] }
      { cd2 with x := cd2.x + width }
    | none => cd
  else cd

/-- The element size bound used for the termination of `draw`. -/
theorem Element.sizeOf_children_lt (e : Element) : sizeOf e.children < sizeOf e := by
  cases e with
  | mk ty ch a s t c =>
    simp [Element.children]
    omega

set_option maxHeartbeats 1600000

mutual

/-- `Element::draw` from `element.rs`: compute the active style, stop
on `display:none` or raw-text elements, advance past a started inline
row for blocks, then dispatch to the text-node, image, input or generic
child-recursing branch, resolving sizes through the unknown-sized
table.  `none` is the panic channel of `get_active_style`. -/
def Element.draw (cw : Char → Nat) (e : Element)
    (parent_draw_ctx : ElementDrawContext) (g : GlobalDrawContext)
    (dd : DrawData) : Option (GlobalDrawContext × DrawData) :=
  let ancestorInfo := dd.ancestors_target_info ++
    [⟨e.ty.name, e.get_attribute "id", e.classes⟩]
  match e.get_active_style g parent_draw_ctx ancestorInfo with
  | none => none
  | some style =>
    if e.ty.stops_parsing = true ∨ style.display = .Specified .None then
      some (g, dd)
    else
      let is_body := e.ty.name = "body"
      let dd1 := if is_body then
          match style.background_color with
          | .Specified color =>
            { dd with draw_calls := dd.draw_calls ++ [DrawCall.ClearColor color] }
          | _ => dd
        else dd
      let is_display_block := style.display = .Specified .Block
      let dd2 := if is_display_block ∧ dd1.x ≠ 0 then
          { dd1 with y := dd1.y + max dd1.last_item_height LH, x := 0 }
        else dd1
      if e.ty.name = "node" then
        some (g, drawNode cw style is_display_block e.text dd2)
      else
        let reg := registerElement e g dd2
        let g2 := reg.1
        let self_interactable := reg.2.1
        let self_form := reg.2.2
        let ja := actualize (style.width.unwrap_or (.Pixels 0)) dd2
          g2.unknown_sized_elements false
        let jb := actualize (style.height.unwrap_or (.Pixels 0)) dd2 ja.2 false
        let aw := ja.1
        let ah := jb.1
        let g3 := { g2 with unknown_sized_elements := jb.2 }
        if e.ty.name = "img" then
          some (drawImg (e.get_attribute "src") is_display_block aw ah g3 dd2)
        else
          match (if e.ty.name = "input" ∨ e.ty.name = "button" then
              e.get_attribute "type" else none) with
          | some tyv =>
            some (drawInputEl e tyv self_form is_display_block aw ah g3 dd2)
          | none =>
            let dd3 := { dd2 with
              content_width := max dd2.content_width aw.get_pixels_lossy
              content_height := max dd2.content_height ah.get_pixels_lossy }
            let ddpw := match dd3.parent_width.get_pixels with
              | some pixels =>
                if pixels ≠ 0 ∧ (match aw.get_pixels with
                    | none => true
                    | some p => decide (pixels < p)) = true then
                  ActualMeasurement.Pixels pixels
                else aw
              | none => aw
            let cd0 := { DrawData.empty with
              parent_width := ddpw
              parent_height := ah
              parent_interactable := self_interactable
              ancestors_target_info := ancestorInfo
              last_was_inline_and_sized := dd3.last_was_inline_and_sized
              parent_form := self_form }
            let cd1 := liPrefix cw parent_draw_ctx style e.ty.name dd3.y cd0
            match drawChildren cw e.children style g3 cd1 dd3 with
            | none => none
            | some (g4, cd3, dd4) =>
              let cd4 := { cd3 with
                draw_calls := cd3.draw_calls.map (translateCall dd4.x dd4.y) }
              some (finishGeneric style is_body is_display_block aw ah g4 cd4 dd4)
termination_by sizeOf e
decreasing_by
  all_goals exact Element.sizeOf_children_lt e

/-- The children loop of `Element::draw`: draw each child into the
shared child draw data, folding the child's content size into the
parent's. -/
def drawChildren (cw : Char → Nat) (es : List Element)
    (style : ElementDrawContext) (g : GlobalDrawContext) (cd : DrawData)
    (dd : DrawData) : Option (GlobalDrawContext × DrawData × DrawData) :=
  match es with
  | [] => some (g, cd, dd)
  | child :: rest =>
    match Element.draw cw child style g cd with
    | none => none
    | some (g2, cd2) =>
      let dd2 := { dd with
        content_width := max dd.content_width (dd.x + cd2.content_width)
        content_height := max dd.content_height (dd.y + cd2.content_height) }
      drawChildren cw rest style g2 cd2 dd2
termination_by sizeOf es
decreasing_by
  all_goals simp only [List.cons.sizeOf_spec]
  all_goals omega

end

set_option maxHeartbeats 200000

/-- The unknown-sized-elements table. -/
abbrev Table := List (Option ActualMeasurement)

/-- A table entry that is filled with a concrete pixel value. -/
def isSomePixels : Option ActualMeasurement → Bool
  | some (.Pixels _) => true
  | _ => false

/-- Every entry of the table is a filled `Pixels` value: nothing is
unfilled (`None`) and no `Waiting` or `PercentOfUnknown` remains. -/
def AllPixels (t : Table) : Prop := ∀ a ∈ t, isSomePixels a = true

/-- The frame condition `Element::draw` maintains on the table: it only
appends, never changes an entry that existed before the call, and every
entry it appended is a filled `Pixels` value by the time it returns. -/
def TableFrame (t t' : Table) : Prop :=
  t.length ≤ t'.length ∧
  (∀ i, i < t.length → t'[i]? = t[i]?) ∧
  (∀ i, t.length ≤ i → i < t'.length → ∃ p, t'[i]? = some (some (.Pixels p)))

/-- The frame condition is reflexive. -/
theorem TableFrame.refl (t : Table) : TableFrame t t :=
  ⟨Nat.le_refl _, fun _ _ => rfl, fun i h1 h2 => absurd h2 (by omega)⟩

/-- The frame condition composes. -/
theorem TableFrame.trans {t u v : Table} (h1 : TableFrame t u)
    (h2 : TableFrame u v) : TableFrame t v := by
  obtain ⟨hl1, hp1, hn1⟩ := h1
  obtain ⟨hl2, hp2, hn2⟩ := h2
  refine ⟨Nat.le_trans hl1 hl2, fun i hi => ?_, fun i hi1 hi2 => ?_⟩
  · rw [hp2 i (by omega), hp1 i hi]
  · by_cases hc : i < u.length
    · obtain ⟨p, hp⟩ := hn1 i hi1 hc
      exact ⟨p, by rw [hp2 i hc, hp]⟩
    · exact hn2 i (by omega) hi2

/-- A framed extension of an all-pixels table is all pixels. -/
theorem TableFrame.allPixels {t t' : Table} (h : TableFrame t t')
    (hap : AllPixels t) : AllPixels t' := by
  obtain ⟨hl, hp, hn⟩ := h
  intro a ha
  obtain ⟨i, hi⟩ := List.mem_iff_getElem?.mp ha
  have hilen : i < t'.length := by
    by_contra hc
    rw [List.getElem?_eq_none (by omega)] at hi
    exact Option.noConfusion hi
  by_cases hc : i < t.length
  · have h2 : t[i]? = some a := by rw [← hp i hc]; exact hi
    exact hap a (List.getElem?_mem h2)
  · obtain ⟨p, hp'⟩ := hn i (by omega) hilen
    rw [hi] at hp'
    obtain rfl : a = some (.Pixels p) := by
      injection hp'
    rfl

/-- Framing through an intermediate table that appends `news` fresh
entries: any later table that preserves the old prefix, holds pixels on
the `news` region, and otherwise agrees with a table framed over
`t0 ++ news`, is a frame over `t0`. -/
theorem TableFrame.of_mid (t0 news t3 upd : Table)
    (hf : TableFrame (t0 ++ news) t3)
    (hlen : upd.length = t3.length)
    (hpre : ∀ i, i < t0.length → upd[i]? = t3[i]?)
    (hmid : ∀ i, t0.length ≤ i → i < t0.length + news.length →
      ∃ p, upd[i]? = some (some (.Pixels p)))
    (hrest : ∀ i, t0.length + news.length ≤ i → upd[i]? = t3[i]?) :
    TableFrame t0 upd := by
  obtain ⟨hl, hp, hn⟩ := hf
  rw [List.length_append] at hl hp hn
  refine ⟨by omega, fun i hi => ?_, fun i hi1 hi2 => ?_⟩
  · rw [hpre i hi, hp i (by omega), List.getElem?_append_left hi]
  · by_cases hc : i < t0.length + news.length
    · exact hmid i hi1 hc
    · obtain ⟨p, hp'⟩ := hn i (by omega) (by omega)
      exact ⟨p, by rw [hrest i (by omega), hp']⟩

/-- Setting the entry right at the old length of an appended table. -/
theorem set_append_at (t0 : Table) (l : List (Option ActualMeasurement))
    (k : Nat) (b : Option ActualMeasurement) :
    (t0 ++ l).set (t0.length + k) b = t0 ++ l.set k b := by
  induction t0 with
  | nil => simp
  | cons a t ih =>
    simp only [List.cons_append, List.length_cons, List.set]
    rw [show t.length + 1 + k = (t.length + k) + 1 by omega]
    simp only [List.set]
    rw [ih]

/-- `actualize` with unknown content size returns `Waiting` exactly for
the fit-content measurements, appending one unfilled entry at the old
table length. -/
theorem actualize_false_waiting {m : Measurement} {dd : DrawData} {t : Table}
    {i : Nat} (h : (actualize m dd t false).1 = .Waiting i) :
    i = t.length ∧ (actualize m dd t false).2 = t ++ [none] ∧
      (m = .FitContentWidth ∨ m = .FitContentHeight) := by
  cases m with
  | Pixels p => exact absurd h (by simp [actualize])
  | FitContentWidth =>
    have h' : ActualMeasurement.Waiting t.length = ActualMeasurement.Waiting i := h
    injection h' with h2
    exact ⟨h2.symm, rfl, Or.inl rfl⟩
  | FitContentHeight =>
    have h' : ActualMeasurement.Waiting t.length = ActualMeasurement.Waiting i := h
    injection h' with h2
    exact ⟨h2.symm, rfl, Or.inr rfl⟩
  | PercentWidth f =>
    exfalso
    revert h
    simp only [actualize]
    cases dd.parent_width <;> simp
  | PercentHeight f =>
    exfalso
    revert h
    simp only [actualize]
    cases dd.parent_height <;> simp

/-- `actualize` with unknown content size leaves the table unchanged
when it does not return `Waiting`. -/
theorem actualize_false_not_waiting {m : Measurement} {dd : DrawData}
    {t : Table} (h : ∀ i, (actualize m dd t false).1 ≠ .Waiting i) :
    (actualize m dd t false).2 = t := by
  cases m with
  | Pixels p => rfl
  | FitContentWidth =>
    exact absurd rfl (h t.length)
  | FitContentHeight =>
    exact absurd rfl (h t.length)
  | PercentWidth f => rfl
  | PercentHeight f => rfl

/-- Re-actualizing a fit-content measurement with the content size
known yields pixels and leaves the table unchanged. -/
theorem actualize_true_fitcontent {m : Measurement} (dd : DrawData) (t : Table)
    (h : m = .FitContentWidth ∨ m = .FitContentHeight) :
    ∃ p, actualize m dd t true = (.Pixels p, t) := by
  rcases h with rfl | rfl
  · exact ⟨dd.content_width, by simp [actualize]⟩
  · exact ⟨dd.content_height, by simp [actualize]⟩

/-- `registerElement` never touches the unknown-sized table. -/
theorem registerElement_table (e : Element) (g : GlobalDrawContext)
    (dd : DrawData) :
    (registerElement e g dd).1.unknown_sized_elements =
      g.unknown_sized_elements := by
  unfold registerElement
  split
  · split <;> rfl
  · split
    · split <;> rfl
    · rfl

/-- The table produced by the `img` branch is the two fills applied to
the incoming table. -/
theorem drawImg_table (src : Option String) (idb : Bool)
    (aw ah : ActualMeasurement) (g : GlobalDrawContext) (dd : DrawData) :
    (drawImg src idb aw ah g dd).1.unknown_sized_elements =
      (fillWaiting ah (fillWaiting aw g.unknown_sized_elements).2).2 := rfl

/-- The table produced by the `input`/`button` branch is the two fills
applied to the incoming table. -/
theorem drawInputEl_table (e : Element) (tyv : String) (sf : Option Nat)
    (idb : Bool) (aw ah : ActualMeasurement) (g : GlobalDrawContext)
    (dd : DrawData) :
    (drawInputEl e tyv sf idb aw ah g dd).1.unknown_sized_elements =
      (fillWaiting ah (fillWaiting aw g.unknown_sized_elements).2).2 := by
  unfold drawInputEl
  split
  · split
    · split
      · split <;> rfl
      · split
        · rfl
        · rfl
    · rfl
  · rfl

/-- Building a frame directly from length, prefix and new-entry
conditions. -/
theorem frame_of_conditions (t0 final : Table) (k : Nat)
    (hlen : final.length = t0.length + k)
    (hpre : ∀ i, i < t0.length → final[i]? = t0[i]?)
    (hnew : ∀ i, t0.length ≤ i → i < final.length →
      ∃ p, final[i]? = some (some (.Pixels p))) :
    TableFrame t0 final :=
  ⟨by omega, hpre, hnew⟩

/-- After both initial actualizations and both fills (the `img` and
`input` paths), the table is a frame over the original one: the
appended unfilled entries were forced to zero pixels. -/
theorem frame_fill_fill (wm hm : Measurement) (dd : DrawData) (t0 : Table) :
    TableFrame t0
      (fillWaiting (actualize hm dd (actualize wm dd t0 false).2 false).1
        (fillWaiting (actualize wm dd t0 false).1
          (actualize hm dd (actualize wm dd t0 false).2 false).2).2).2 := by
  by_cases hw : ∃ i, (actualize wm dd t0 false).1 = .Waiting i
  · obtain ⟨iw, hiw⟩ := hw
    obtain ⟨hiw_eq, ht1, -⟩ := actualize_false_waiting hiw
    by_cases hh : ∃ j,
        (actualize hm dd (actualize wm dd t0 false).2 false).1 = .Waiting j
    · obtain ⟨jh, hjh⟩ := hh
      obtain ⟨hjh_eq, ht2, -⟩ := actualize_false_waiting hjh
      rw [ht1] at hjh ht2 hjh_eq
      simp only [List.length_append, List.length_singleton] at hjh_eq
      simp only [hiw, hjh, fillWaiting, ht2, ht1, hiw_eq, hjh_eq]
      refine frame_of_conditions t0 _ 2 ?_ ?_ ?_
      · simp
      · intro i hi
        rw [List.getElem?_set_ne (by omega), List.getElem?_set_ne (by omega),
          List.getElem?_append_left (by simp; omega),
          List.getElem?_append_left hi]
      · intro i hi1 hi2
        simp only [List.length_set, List.length_append,
          List.length_singleton] at hi2
        rcases (by omega : i = t0.length + 1 ∨ i = t0.length) with rfl | rfl
        · exact ⟨0, List.getElem?_set_self (by simp)⟩
        · refine ⟨0, ?_⟩
          rw [List.getElem?_set_ne (by omega)]
          exact List.getElem?_set_self (by simp)
    · push_neg at hh
      have ht2 := actualize_false_not_waiting hh
      cases hfh : (actualize hm dd (actualize wm dd t0 false).2 false).1 with
      | Waiting j => exact absurd hfh (hh j)
      | Pixels p =>
        rw [ht1] at hfh ht2
        simp only [hiw, hfh, fillWaiting, ht2, ht1, hiw_eq]
        refine frame_of_conditions t0 _ 1 (by simp) ?_ ?_
        · intro i hi
          rw [List.getElem?_set_ne (by omega), List.getElem?_append_left hi]
        · intro i hi1 hi2
          simp only [List.length_set, List.length_append,
            List.length_singleton] at hi2
          obtain rfl : i = t0.length := by omega
          exact ⟨0, List.getElem?_set_self (by simp)⟩
      | PercentOfUnknown j f =>
        rw [ht1] at hfh ht2
        simp only [hiw, hfh, fillWaiting, ht2, ht1, hiw_eq]
        refine frame_of_conditions t0 _ 1 (by simp) ?_ ?_
        · intro i hi
          rw [List.getElem?_set_ne (by omega), List.getElem?_append_left hi]
        · intro i hi1 hi2
          simp only [List.length_set, List.length_append,
            List.length_singleton] at hi2
          obtain rfl : i = t0.length := by omega
          exact ⟨0, List.getElem?_set_self (by simp)⟩
  · push_neg at hw
    have ht1 := actualize_false_not_waiting hw
    by_cases hh : ∃ j,
        (actualize hm dd (actualize wm dd t0 false).2 false).1 = .Waiting j
    · obtain ⟨jh, hjh⟩ := hh
      obtain ⟨hjh_eq, ht2, -⟩ := actualize_false_waiting hjh
      rw [ht1] at hjh ht2 hjh_eq
      cases hfw : (actualize wm dd t0 false).1 with
      | Waiting j => exact absurd hfw (hw j)
      | Pixels p =>
        simp only [hfw, hjh, fillWaiting, ht2, ht1, hjh_eq]
        refine frame_of_conditions t0 _ 1 (by simp) ?_ ?_
        · intro i hi
          rw [List.getElem?_set_ne (by omega), List.getElem?_append_left hi]
        · intro i hi1 hi2
          simp only [List.length_set, List.length_append,
            List.length_singleton] at hi2
          obtain rfl : i = t0.length := by omega
          exact ⟨0, List.getElem?_set_self (by simp)⟩
      | PercentOfUnknown j f =>
        simp only [hfw, hjh, fillWaiting, ht2, ht1, hjh_eq]
        refine frame_of_conditions t0 _ 1 (by simp) ?_ ?_
        · intro i hi
          rw [List.getElem?_set_ne (by omega), List.getElem?_append_left hi]
        · intro i hi1 hi2
          simp only [List.length_set, List.length_append,
            List.length_singleton] at hi2
          obtain rfl : i = t0.length := by omega
          exact ⟨0, List.getElem?_set_self (by simp)⟩
    · push_neg at hh
      have ht2 := actualize_false_not_waiting hh
      rw [ht1] at ht2
      cases hfw : (actualize wm dd t0 false).1 with
      | Waiting j => exact absurd hfw (hw j)
      | Pixels p =>
        cases hfh : (actualize hm dd (actualize wm dd t0 false).2 false).1 with
        | Waiting j => exact absurd hfh (hh j)
        | Pixels q =>
          rw [ht1] at hfh
          simp only [hfw, hfh, fillWaiting, ht2, ht1]
          exact TableFrame.refl t0
        | PercentOfUnknown j f =>
          rw [ht1] at hfh
          simp only [hfw, hfh, fillWaiting, ht2, ht1]
          exact TableFrame.refl t0
      | PercentOfUnknown j f =>
        cases hfh : (actualize hm dd (actualize wm dd t0 false).2 false).1 with
        | Waiting j2 => exact absurd hfh (hh j2)
        | Pixels q =>
          rw [ht1] at hfh
          simp only [hfw, hfh, fillWaiting, ht2, ht1]
          exact TableFrame.refl t0
        | PercentOfUnknown j2 f2 =>
          rw [ht1] at hfh
          simp only [hfw, hfh, fillWaiting, ht2, ht1]
          exact TableFrame.refl t0

/-- A frame survives filling the single appended slot with pixels. -/
theorem frame_set_one (t0 t3 : Table) (p : Nat)
    (hf : TableFrame (t0 ++ [none]) t3) :
    TableFrame t0 (t3.set t0.length (some (.Pixels p))) := by
  have hl := hf.1
  rw [List.length_append, List.length_singleton] at hl
  refine TableFrame.of_mid t0 [none] t3 _ hf (by simp [List.length_set])
    ?_ ?_ ?_
  · intro i hi
    rw [List.getElem?_set_ne (by omega)]
  · intro i hi1 hi2
    simp only [List.length_singleton] at hi2
    obtain rfl : i = t0.length := by omega
    exact ⟨p, List.getElem?_set_self (by omega)⟩
  · intro i hi
    simp only [List.length_singleton] at hi
    rw [List.getElem?_set_ne (by omega)]

/-- A frame survives filling both appended slots with pixels. -/
theorem frame_set_two (t0 t3 : Table) (p q : Nat)
    (hf : TableFrame (t0 ++ [none] ++ [none]) t3) :
    TableFrame t0 ((t3.set t0.length (some (.Pixels p))).set
      (t0.length + 1) (some (.Pixels q))) := by
  have hl := hf.1
  simp only [List.length_append, List.length_singleton] at hl
  rw [List.append_assoc] at hf
  refine TableFrame.of_mid t0 ([none] ++ [none]) t3 _ hf
    (by simp [List.length_set]) ?_ ?_ ?_
  · intro i hi
    rw [List.getElem?_set_ne (by omega), List.getElem?_set_ne (by omega)]
  · intro i hi1 hi2
    simp only [List.length_append, List.length_singleton] at hi2
    rcases (by omega : i = t0.length + 1 ∨ i = t0.length) with rfl | rfl
    · exact ⟨q, List.getElem?_set_self (by simp [List.length_set]; omega)⟩
    · refine ⟨p, ?_⟩
      rw [List.getElem?_set_ne (by omega)]
      exact List.getElem?_set_self (by omega)
  · intro i hi
    simp only [List.length_append, List.length_singleton] at hi
    rw [List.getElem?_set_ne (by omega), List.getElem?_set_ne (by omega)]

/-- The generic branch's tail keeps the frame: whatever `Waiting`
entries the two initial actualizations appended are filled with pixels
by the re-actualization, and the children's own appended entries
(covered by the incoming frame hypothesis) stay filled. -/
theorem finishGeneric_frame (style : ElementDrawContext) (isb idb : Bool)
    (dd2 : DrawData) (t0 t1 t2 : Table) (aw ah : ActualMeasurement)
    (hja : actualize (style.width.unwrap_or (.Pixels 0)) dd2 t0 false
      = (aw, t1))
    (hjb : actualize (style.height.unwrap_or (.Pixels 0)) dd2 t1 false
      = (ah, t2))
    (g4 : GlobalDrawContext) (cd dd : DrawData)
    (hfr : TableFrame t2 g4.unknown_sized_elements) :
    TableFrame t0
      (finishGeneric style isb idb aw ah g4 cd dd).1.unknown_sized_elements := by
  have hja1 : (actualize (style.width.unwrap_or (.Pixels 0)) dd2 t0
      false).1 = aw := by rw [hja]
  have hja2 : (actualize (style.width.unwrap_or (.Pixels 0)) dd2 t0
      false).2 = t1 := by rw [hja]
  have hjb1 : (actualize (style.height.unwrap_or (.Pixels 0)) dd2 t1
      false).1 = ah := by rw [hjb]
  have hjb2 : (actualize (style.height.unwrap_or (.Pixels 0)) dd2 t1
      false).2 = t2 := by rw [hjb]
  cases aw with
  | Waiting iw =>
    obtain ⟨hiw_eq, ht1, hwm⟩ := actualize_false_waiting hja1
    rw [hja2] at ht1
    obtain ⟨pw, hpw⟩ := actualize_true_fitcontent cd
      g4.unknown_sized_elements hwm
    subst hiw_eq
    cases ah with
    | Waiting jh =>
      obtain ⟨hjh_eq, ht2, hhm⟩ := actualize_false_waiting hjb1
      rw [hjb2] at ht2
      rw [ht1] at hjh_eq ht2
      rw [List.length_append, List.length_singleton] at hjh_eq
      subst hjh_eq
      rw [ht2] at hfr
      simp only [finishGeneric, hpw]
      obtain ⟨ph, hph⟩ := actualize_true_fitcontent cd
        (g4.unknown_sized_elements.set t0.length
          (some (ActualMeasurement.Pixels pw))) hhm
      simp only [hph]
      exact frame_set_two t0 g4.unknown_sized_elements pw ph hfr
    | Pixels q =>
      have ht2 : t2 = t1 := by
        rw [← hjb2]
        exact actualize_false_not_waiting (fun j h => by
          rw [hjb1] at h; exact ActualMeasurement.noConfusion h)
      rw [ht2, ht1] at hfr
      simp only [finishGeneric, hpw]
      exact frame_set_one t0 g4.unknown_sized_elements pw hfr
    | PercentOfUnknown j f =>
      have ht2 : t2 = t1 := by
        rw [← hjb2]
        exact actualize_false_not_waiting (fun j2 h => by
          rw [hjb1] at h; exact ActualMeasurement.noConfusion h)
      rw [ht2, ht1] at hfr
      simp only [finishGeneric, hpw]
      exact frame_set_one t0 g4.unknown_sized_elements pw hfr
  | Pixels p =>
    have ht1 : t1 = t0 := by
      rw [← hja2]
      exact actualize_false_not_waiting (fun j h => by
        rw [hja1] at h; exact ActualMeasurement.noConfusion h)
    cases ah with
    | Waiting jh =>
      obtain ⟨hjh_eq, ht2, hhm⟩ := actualize_false_waiting hjb1
      rw [hjb2] at ht2
      rw [ht1] at hjh_eq ht2
      subst hjh_eq
      obtain ⟨ph, hph⟩ := actualize_true_fitcontent cd
        g4.unknown_sized_elements hhm
      rw [ht2] at hfr
      simp only [finishGeneric, hph]
      exact frame_set_one t0 g4.unknown_sized_elements ph hfr
    | Pixels q =>
      have ht2 : t2 = t1 := by
        rw [← hjb2]
        exact actualize_false_not_waiting (fun j h => by
          rw [hjb1] at h; exact ActualMeasurement.noConfusion h)
      rw [ht2, ht1] at hfr
      simpa only [finishGeneric] using hfr
    | PercentOfUnknown j f =>
      have ht2 : t2 = t1 := by
        rw [← hjb2]
        exact actualize_false_not_waiting (fun j2 h => by
          rw [hjb1] at h; exact ActualMeasurement.noConfusion h)
      rw [ht2, ht1] at hfr
      simpa only [finishGeneric] using hfr
  | PercentOfUnknown j0 f0 =>
    have ht1 : t1 = t0 := by
      rw [← hja2]
      exact actualize_false_not_waiting (fun j h => by
        rw [hja1] at h; exact ActualMeasurement.noConfusion h)
    cases ah with
    | Waiting jh =>
      obtain ⟨hjh_eq, ht2, hhm⟩ := actualize_false_waiting hjb1
      rw [hjb2] at ht2
      rw [ht1] at hjh_eq ht2
      subst hjh_eq
      obtain ⟨ph, hph⟩ := actualize_true_fitcontent cd
        g4.unknown_sized_elements hhm
      rw [ht2] at hfr
      simp only [finishGeneric, hph]
      exact frame_set_one t0 g4.unknown_sized_elements ph hfr
    | Pixels q =>
      have ht2 : t2 = t1 := by
        rw [← hjb2]
        exact actualize_false_not_waiting (fun j h => by
          rw [hjb1] at h; exact ActualMeasurement.noConfusion h)
      rw [ht2, ht1] at hfr
      simpa only [finishGeneric] using hfr
    | PercentOfUnknown j f =>
      have ht2 : t2 = t1 := by
        rw [← hjb2]
        exact actualize_false_not_waiting (fun j2 h => by
          rw [hjb1] at h; exact ActualMeasurement.noConfusion h)
      rw [ht2, ht1] at hfr
      simpa only [finishGeneric] using hfr


/-- `finishGeneric_frame` specialized to the projection terms that
appear literally in the body of `Element.draw`. -/
theorem finishGeneric_frame_proj (style : ElementDrawContext)
    (isb idb : Bool) (dd2 : DrawData) (t0 : Table)
    (g4 : GlobalDrawContext) (cd dd : DrawData)
    (hfr : TableFrame
      (actualize (style.height.unwrap_or (.Pixels 0)) dd2
        (actualize (style.width.unwrap_or (.Pixels 0)) dd2 t0 false).2
          false).2
      g4.unknown_sized_elements) :
    TableFrame t0
      (finishGeneric style isb idb
        (actualize (style.width.unwrap_or (.Pixels 0)) dd2 t0 false).1
        (actualize (style.height.unwrap_or (.Pixels 0)) dd2
          (actualize (style.width.unwrap_or (.Pixels 0)) dd2 t0 false).2
            false).1
        g4 cd dd).1.unknown_sized_elements :=
  finishGeneric_frame style isb idb dd2 t0 _ _ _ _ rfl rfl g4 cd dd hfr

/-- The main frame induction over the element tree, by strong induction
on the tree size: both `Element.draw` and `drawChildren` only append to
the unknown-sized table, never change an existing entry, and fill every
entry they append with pixels before returning. -/
theorem draw_frame_aux (cw : Char → Nat) : ∀ n : Nat,
    (∀ (e : Element) (pctx : ElementDrawContext) (g : GlobalDrawContext)
      (dd : DrawData) (r : GlobalDrawContext × DrawData), sizeOf e ≤ n →
      Element.draw cw e pctx g dd = some r →
      TableFrame g.unknown_sized_elements r.1.unknown_sized_elements) ∧
    (∀ (es : List Element) (st : ElementDrawContext)
      (g : GlobalDrawContext) (cd dd : DrawData)
      (r : GlobalDrawContext × DrawData × DrawData), sizeOf es ≤ n →
      drawChildren cw es st g cd dd = some r →
      TableFrame g.unknown_sized_elements r.1.unknown_sized_elements) := by
  intro n
  induction n with
  | zero =>
    constructor
    · intro e pctx g dd r hsz hdraw
      exfalso
      cases e with
      | mk ty ch a s t c =>
        simp only [Element.mk.sizeOf_spec] at hsz
        omega
    · intro es st g cd dd r hsz hdraw
      exfalso
      cases es with
      | nil =>
        simp only [List.nil.sizeOf_spec] at hsz
        omega
      | cons a l =>
        simp only [List.cons.sizeOf_spec] at hsz
        omega
  | succ n ih =>
    obtain ⟨ihd, ihc⟩ := ih
    constructor
    · intro e pctx g dd r hsz hdraw
      simp only [Element.draw] at hdraw
      split at hdraw
      · exact Option.noConfusion hdraw
      · rename_i style hstyle
        split at hdraw
        · obtain rfl := Option.some.inj hdraw
          exact TableFrame.refl _
        · split at hdraw
          · obtain rfl := Option.some.inj hdraw
            exact TableFrame.refl _
          · split at hdraw
            · obtain rfl := Option.some.inj hdraw
              rw [drawImg_table]
              refine TableFrame.trans ?_ (frame_fill_fill _ _ _ _)
              rw [registerElement_table]
              exact TableFrame.refl _
            · split at hdraw
              · obtain rfl := Option.some.inj hdraw
                rw [drawInputEl_table]
                refine TableFrame.trans ?_ (frame_fill_fill _ _ _ _)
                rw [registerElement_table]
                exact TableFrame.refl _
              · split at hdraw
                · exact Option.noConfusion hdraw
                · rename_i g4 cd3 dd4 heq
                  obtain rfl := Option.some.inj hdraw
                  have hch := ihc e.children style _ _ _ _
                    (by have := Element.sizeOf_children_lt e; omega) heq
                  refine TableFrame.trans ?_
                    (finishGeneric_frame_proj style _ _ _ _ _ _ _ hch)
                  rw [registerElement_table]
                  exact TableFrame.refl _
    · intro es st g cd dd r hsz hdraw
      cases es with
      | nil =>
        simp only [drawChildren] at hdraw
        obtain rfl := Option.some.inj hdraw
        exact TableFrame.refl _
      | cons child rest =>
        simp only [drawChildren] at hdraw
        split at hdraw
        · exact Option.noConfusion hdraw
        · rename_i g2 cd2 heq
          have h1 := ihd child st g cd (g2, cd2)
            (by simp only [List.cons.sizeOf_spec] at hsz; omega) heq
          have h2 := ihc rest st g2 cd2 _ r
            (by simp only [List.cons.sizeOf_spec] at hsz; omega) hdraw
          exact TableFrame.trans h1 h2

/-- On an all-pixels table, `actualize_actual` resolves any in-range
`Waiting` reference to a concrete pixel value - it never panics. -/
theorem allPixels_actualize_waiting {t : Table} (hap : AllPixels t)
    {i : Nat} (hi : i < t.length) :
    ∃ p, actualize_actual (.Waiting i) t = some p := by
  have hmem : t[i] ∈ t := List.getElem_mem hi
  have hpx := hap _ hmem
  cases ht : t[i] with
  | none => rw [ht] at hpx; exact absurd hpx (by simp [isSomePixels])
  | some a =>
    cases a with
    | Pixels p =>
      refine ⟨p, ?_⟩
      have hget : t[i]? = some (some (.Pixels p)) := by
        rw [List.getElem?_eq_getElem hi, ht]
      simp [actualize_actual, actualizeActualFuel, List.get?_eq_getElem?,
        hget]
    | Waiting j => rw [ht] at hpx; exact absurd hpx (by simp [isSomePixels])
    | PercentOfUnknown j f =>
      rw [ht] at hpx; exact absurd hpx (by simp [isSomePixels])


/-- C1: for every layout pass over any element tree that starts from a
table whose entries are all pixels (in particular the empty table of a
fresh pass), when `Element::draw` returns, every entry of the
unknown-sized-elements table is `Pixels(_)`: no entry is still unfilled
and no `Waiting` remains, so the renderer's `actualize_actual` resolves
every in-range `Waiting` reference to a concrete pixel value instead of
hitting an unresolved one. -/
theorem C1_table_all_pixels (cw : Char → Nat) (e : Element)
    (pctx : ElementDrawContext) (g : GlobalDrawContext) (dd : DrawData)
    (r : GlobalDrawContext × DrawData)
    (hap : AllPixels g.unknown_sized_elements)
    (hdraw : Element.draw cw e pctx g dd = some r) :
    AllPixels r.1.unknown_sized_elements ∧
    ∀ i, i < r.1.unknown_sized_elements.length →
      ∃ p, actualize_actual (.Waiting i) r.1.unknown_sized_elements
        = some p := by
  have hfr := (draw_frame_aux cw (sizeOf e)).1 e pctx g dd r
    (Nat.le_refl _) hdraw
  have hap2 := hfr.allPixels hap
  exact ⟨hap2, fun i hi => allPixels_actualize_waiting hap2 hi⟩


/-- C1 witness: drawing a plain `<div>` into a fresh pass (empty table)
succeeds and leaves the unknown-sized table all pixels. -/
theorem C1_table_all_pixels_witness :
    AllPixels emptyGlobalCtx.unknown_sized_elements ∧
    (Element.draw (fun _ => 1) (Element.new DIV) DEFAULT_DRAW_CTX
      emptyGlobalCtx DrawData.empty).isSome = true ∧
    AllPixels ((Element.draw (fun _ => 1) (Element.new DIV)
      DEFAULT_DRAW_CTX emptyGlobalCtx DrawData.empty).getD
        (emptyGlobalCtx, DrawData.empty)).1.unknown_sized_elements := by
  have hapE : AllPixels emptyGlobalCtx.unknown_sized_elements :=
    fun a ha => absurd ha (List.not_mem_nil a)
  have hs : (Element.draw (fun _ => 1) (Element.new DIV) DEFAULT_DRAW_CTX
      emptyGlobalCtx DrawData.empty).isSome = true := by
    simp [Element.draw, drawChildren, Element.new, DIV,
      DEFAULT_ELEMENT_TYPE,
      Element.get_active_style, Element.get_active_style_pre,
      ElementDrawContext.merge_inherit, ElementDrawContext.merge_all,
      NonInheritedField.inherit_from, NonInheritedField.unwrap_or,
      NonInheritedField.set_or, DEFAULT_DRAW_CTX, emptyGlobalCtx,
      DrawData.empty, Element.get_attribute, lookupAttr, registerElement,
      actualize, liPrefix, finishGeneric, translateCall, drawNode,
      Element.ty, Element.children, Element.classes, Element.style,
      Element.text, Element.attributes, ActualMeasurement.get_pixels,
      ActualMeasurement.get_pixels_lossy]
  obtain ⟨v, hval⟩ := Option.isSome_iff_exists.mp hs
  have hmain := C1_table_all_pixels (fun _ => 1) (Element.new DIV)
    DEFAULT_DRAW_CTX emptyGlobalCtx DrawData.empty v hapE hval
  refine ⟨hapE, hs, ?_⟩
  rw [hval]
  simp only [Option.getD_some]
  exact hmain.1

end Toad
